import Mathlib

/-!
The g-orm model generator: identifier normalisation, model building, rendering.

A shallow embedding of `generator/generator.go`.

* Go strings are byte sequences; a byte is a `Nat` below 256 and a string is a
  `List Nat`.  `str` turns an ASCII literal into its bytes.
* `toCapitalCase` is embedded with its in-place buffer: every indexed read and
  write is bounds-checked and an out-of-range index (a Go panic) is `none`.
* `strings.ToUpper`, `path.Join`, `os.Create` and `text/template` are library
  code; the package-level default templates live in a file of the package that
  is not part of the sources at hand.  They are the fields of `Lib` and `Templates`.
-/

namespace Generator

/-! ## Strings -/

/-- A Go string: its bytes. -/
abbrev GoString := List Nat

/-- Bytes of an ASCII literal (for ASCII text the code points are the UTF-8 bytes). -/
def str (s : String) : GoString := s.toList.map Char.toNat

/-! ## `toCapitalCase` (generator.go, lines 140-180) -/

/-- Go: `ch >= 'a' && ch <= 'z'`. -/
def isLower (ch : Nat) : Bool := decide (97 ≤ ch) && decide (ch ≤ 122)

/-- Go: `ch >= 'A' && ch <= 'Z'`. -/
def isUpper (ch : Nat) : Bool := decide (65 ≤ ch) && decide (ch ≤ 90)

/-- Go: `(ch >= 'a' && ch <= 'z') || (ch >= 'A' && ch <= 'Z')`. -/
def isLetter (ch : Nat) : Bool := isLower ch || isUpper ch

/-- Go: `ch >= '0' && ch <= '9'`. -/
def isDigit (ch : Nat) : Bool := decide (48 ≤ ch) && decide (ch ≤ 57)

/-- Go: `ch - 'a' + 'A'` on a `byte`. -/
def upperOf (ch : Nat) : Nat := (ch - 97 + 65) % 256

/-- Go: `ch - 'A' + 'a'` on a `byte`. -/
def lowerOf (ch : Nat) : Nat := (ch - 65 + 97) % 256

/-- The local variables of `toCapitalCase` during its loop. -/
structure Scan where
  data : List Nat
  segStart : Bool
  endPos : Nat
  isFirst : Bool
  lastUnderScore : Bool
deriving DecidableEq, Repr

/-- Go: `data[pos] = b`; an index out of range panics. -/
def store {α : Type} (data : List α) (pos : Nat) (b : α) : Option (List α) :=
  if pos < data.length then some (data.set pos b) else none

/-- The letter written for `ch` (lines 149-160). -/
def letterCase (firstLetterUpper segStart isFirst : Bool) (ch : Nat) : Nat :=
  if segStart then
    if isLower ch then
      if !isFirst || firstLetterUpper then upperOf ch else ch
    else ch
  else
    if isUpper ch then lowerOf ch else ch

/-- One iteration of the loop body at index `i` (lines 147-177). -/
def scanStep (firstLetterUpper : Bool) (s : Scan) (i : Nat) : Option Scan :=
  match s.data[i]? with
  | none => none
  | some ch =>
    if isLetter ch then
      match store s.data s.endPos (letterCase firstLetterUpper s.segStart s.isFirst ch) with
      | none => none
      | some d =>
        some { data := d, segStart := false, endPos := s.endPos + 1,
               isFirst := false, lastUnderScore := false }
    else if isDigit ch then
      if s.lastUnderScore then
        match store s.data s.endPos 95 with
        | none => none
        | some d1 =>
          match store d1 (s.endPos + 1) ch with
          | none => none
          | some d2 =>
            some { data := d2, segStart := true, endPos := s.endPos + 2,
                   isFirst := false, lastUnderScore := false }
      else
        match store s.data s.endPos ch with
        | none => none
        | some d =>
          some { data := d, segStart := true, endPos := s.endPos + 1,
                 isFirst := false, lastUnderScore := false }
    else
      some { s with segStart := true, isFirst := false, lastUnderScore := true }

/-- The loop `for i := 0; i < len(data); i++`, entered at index `i` with
`n = len(data) - i` iterations left. -/
def scanLoop (firstLetterUpper : Bool) : Nat → Nat → Scan → Option Scan
  | 0, _, s => some s
  | n + 1, i, s =>
    match scanStep firstLetterUpper s i with
    | none => none
    | some s1 => scanLoop firstLetterUpper n (i + 1) s1

/-- The embedding of `toCapitalCase`: `none` is a panic, `some out` the returned string.
The final `data[:endPos]` is checked against the length of `data`. -/
def toCapitalCase (name : GoString) (firstLetterUpper : Bool) : Option GoString :=
  match scanLoop firstLetterUpper name.length 0
      { data := name, segStart := true, endPos := 0, isFirst := true,
        lastUnderScore := false } with
  | none => none
  | some s => if s.endPos ≤ s.data.length then some (s.data.take s.endPos) else none

/-- The output the loop appends from a given flag state over the unread input: the loop
body with the buffer and its indices left out.  `toCapitalCase_eq_walk` shows that the
in-place scan computes it. -/
def walk (firstLetterUpper : Bool) : Bool → Bool → Bool → List Nat → List Nat
  | _, _, _, [] => []
  | segStart, isFirst, lastUnderScore, ch :: rest =>
    if isLetter ch then
      letterCase firstLetterUpper segStart isFirst ch ::
        walk firstLetterUpper false false false rest
    else if isDigit ch then
      if lastUnderScore then 95 :: ch :: walk firstLetterUpper true false false rest
      else ch :: walk firstLetterUpper true false false rest
    else walk firstLetterUpper true false true rest

/-! ## Data model (generator.go, lines 14-41) -/

/-- The attributes of `drivers.Column` that the generator reads. -/
structure Column where
  ColumnName : GoString
  DataType : GoString
  ColumnKey : GoString
  Extra : GoString
  DefaultValue : GoString
  Comment : GoString
deriving DecidableEq, Repr

/-- Go: `drivers.TableSchema`, a slice of columns. -/
abbrev TableSchema := List Column

/-- Go: `CodeConfig`. -/
structure CodeConfig where
  PackageName : GoString
  Template : GoString
deriving DecidableEq, Repr

/-- Go: `ModelField`; the field `Type` is written `Type_`. -/
structure ModelField where
  Name : GoString
  ColumnName : GoString
  Type_ : GoString
  Tag : GoString
  IsPrimaryKey : Bool
  IsUniqueKey : Bool
  IsAutoIncrement : Bool
  DefaultValue : GoString
  Extra : GoString
  Comment : GoString
deriving DecidableEq, Repr

/-- Go: `ModelMeta`.  `PrimaryField` is a pointer: `none` is nil, `some a` the address of
a `field` variable in the store of `Build`. -/
structure ModelMeta where
  Name : GoString
  LowerName : GoString
  DbName : GoString
  TableName : GoString
  PrimaryField : Option Nat
  Fields : List ModelField
  Uniques : List ModelField
  config : CodeConfig
deriving DecidableEq, Repr

/-- The model under construction together with the store holding the `field` variable of
every loop iteration (the variable's address escapes through `&field`). -/
structure Build where
  model : ModelMeta
  heap : List ModelField
deriving DecidableEq, Repr

/-- Dereference of `model.PrimaryField`. -/
def Build.primaryField (b : Build) : Option ModelField :=
  match b.model.PrimaryField with
  | none => none
  | some a => b.heap[a]?

/-! ## Library functions -/

/-- The string and file-system library the generator calls. -/
structure Lib where
  /-- The result of `strings.ToUpper` on a string that has a non-ASCII byte. -/
  unicodeUpper : GoString → GoString
  /-- Go: `path.Join` of two elements. -/
  pathJoin : GoString → GoString → GoString
  /-- Go: `os.Create`; `some e` is the error it returns, `none` is success. -/
  osCreate : GoString → Option GoString

/-- Go: `strings.ToUpper`.  An ASCII-only string has its bytes `a`-`z` mapped to upper
case; any other string goes through the Unicode mapping. -/
def ToUpper (L : Lib) (s : GoString) : GoString :=
  if s.all (fun c => decide (c < 128)) then
    s.map (fun c => if isLower c then upperOf c else c)
  else L.unicodeUpper s

/-- Go: `strings.Join`. -/
def stringsJoin (elems : List GoString) (sep : GoString) : GoString :=
  sep.intercalate elems

/-! ## Model building (generator.go, lines 86-127) -/

/-- The zero value of `ModelField`, as `make([]ModelField, n)` fills a slice. -/
def zeroField : ModelField :=
  { Name := [], ColumnName := [], Type_ := [], Tag := [], IsPrimaryKey := false,
    IsUniqueKey := false, IsAutoIncrement := false, DefaultValue := [], Extra := [],
    Comment := [] }

/-- The body of `for i, col := range schema` (lines 97-126). -/
def buildStep (L : Lib) (st : Build) (i : Nat) (col : Column) : Option Build :=
  match toCapitalCase col.ColumnName true with
  | none => none
  | some name =>
    let field : ModelField :=
      { Name := name
        ColumnName := col.ColumnName
        Type_ := col.DataType
        Tag := str ""
        IsPrimaryKey := decide (ToUpper L col.ColumnKey = str "PRI")
        IsUniqueKey := decide (ToUpper L col.ColumnKey = str "UNI")
        IsAutoIncrement := decide (ToUpper L col.Extra = str "AUTO_INCREMENT")
        DefaultValue := col.DefaultValue
        Extra := col.Extra
        Comment := col.Comment }
    let addr := st.heap.length
    let heap1 := st.heap ++ [field]
    let jsonTag := str "json:\"" ++ col.ColumnName ++ str "\""
    let tagArr := [jsonTag]
    let model1 : ModelMeta :=
      if field.IsPrimaryKey then { st.model with PrimaryField := some addr } else st.model
    let gormTag :=
      if col.ColumnName = str "created_at" ∨ col.ColumnName = str "updated_at" then
        str "gorm:\"-\""
      else str "gorm:\"column:" ++ col.ColumnName ++ str "\""
    let tagArr := tagArr ++ [gormTag]
    let heap2 := heap1.set addr
      { field with Tag := str "`" ++ stringsJoin tagArr (str ",") ++ str "`" }
    match heap2[addr]? with
    | none => none
    | some f =>
      match store model1.Fields i f with
      | none => none
      | some fields => some { model := { model1 with Fields := fields }, heap := heap2 }

/-- The loop `for i, col := range schema`, entered at index `i` over the remaining columns. -/
def buildLoop (L : Lib) : Nat → List Column → Build → Option Build
  | _, [], st => some st
  | i, col :: rest, st =>
    match buildStep L st i col with
    | none => none
    | some st1 => buildLoop L (i + 1) rest st1

/-- Lines 86-127 of `generateModel`: the model handed to the templates. -/
def buildModel (L : Lib) (dbName tName : GoString) (schema : TableSchema)
    (config : CodeConfig) : Option Build :=
  match toCapitalCase tName true, toCapitalCase tName false with
  | some name, some lowerName =>
    buildLoop L 0 schema
      { model :=
          { Name := name
            LowerName := lowerName
            DbName := dbName
            TableName := tName
            PrimaryField := none
            Fields := List.replicate schema.length zeroField
            Uniques := []
            config := config }
        heap := [] }
  | _, _ => none

/-! ## Templates and rendering (generator.go, lines 43-67 and 128-137) -/

/-- The bytes written through the `bufio.Writer`. -/
abbrev Sink := GoString

/-- The value a template is executed on: the map built by `GenHeader`, or the model. -/
inductive Data where
  | header (DbName TableName PkgName : GoString) (ImportTime : Bool)
  | model (b : Build)
deriving DecidableEq, Repr

/-- The `text/template` library over templates of type `T`, with the package-level
default templates `tmHeader`, `tmStruct`, `tmObjApi` (declared in a file of the package
that is not among the sources; non-nil). -/
structure Templates (T : Type) where
  /-- Go: `(*template.Template).Lookup`; `none` is nil. -/
  Lookup : T → GoString → Option T
  /-- Go: `(*template.Template).Execute`: the sink afterwards and the error message, if any. -/
  Execute : T → Sink → Data → Sink × Option GoString
  tmHeader : T
  tmStruct : T
  tmObjApi : T

/-- Go: `ModelMeta.getTemplate` (the receiver is not used). -/
def getTemplate {T : Type} (P : Templates T) (tmpl : Option T) (name : GoString)
    (defaultTmpl : T) : T :=
  match tmpl with
  | some t =>
    match P.Lookup t name with
    | some definedTmpl => definedTmpl
    | none => defaultTmpl
  | none => defaultTmpl

/-- Go: `ModelMeta.GenHeader`. -/
def GenHeader {T : Type} (P : Templates T) (m : Build) (w : Sink) (tmpl : Option T)
    (importTime : Bool) : Sink × Option GoString :=
  P.Execute (getTemplate P tmpl (str "header") P.tmHeader) w
    (Data.header m.model.DbName m.model.TableName m.model.config.PackageName importTime)

/-- Go: `ModelMeta.GenStruct`. -/
def GenStruct {T : Type} (P : Templates T) (m : Build) (w : Sink) (tmpl : Option T) :
    Sink × Option GoString :=
  P.Execute (getTemplate P tmpl (str "struct") P.tmStruct) w (Data.model m)

/-- Go: `ModelMeta.GenObjectApi`. -/
def GenObjectApi {T : Type} (P : Templates T) (m : Build) (w : Sink) (tmpl : Option T) :
    Sink × Option GoString :=
  P.Execute (getTemplate P tmpl (str "obj_api") P.tmObjApi) w (Data.model m)

/-- What a call of `generateModel` leaves behind: the content flushed to the created file
(`none` when no file was created) and the returned error (`none` is nil). -/
structure Outcome where
  file : Option Sink
  err : Option GoString
deriving DecidableEq, Repr

/-- Lines 128-137 of `generateModel`: the three phases with their error wrapping. -/
def renderPhases {T : Type} (P : Templates T) (tName : GoString) (model : Build) (w : Sink)
    (tmpl : Option T) : Sink × Option GoString :=
  match GenHeader P model w tmpl true with
  | (w1, some err) => (w1, some (str "[" ++ tName ++ str "] Fail to gen model header, " ++ err))
  | (w1, none) =>
    match GenStruct P model w1 tmpl with
    | (w2, some err) =>
      (w2, some (str "[" ++ tName ++ str "] Fail to gen model struct, " ++ err))
    | (w2, none) =>
      match GenObjectApi P model w2 tmpl with
      | (w3, some err) =>
        (w3, some (str "[" ++ tName ++ str "] Fail to gen model object api, " ++ err))
      | (w3, none) => (w3, none)

/-- Go: `generateModel`; `none` is a panic. -/
def generateModel {T : Type} (L : Lib) (P : Templates T) (dbName tName : GoString)
    (schema : TableSchema) (config : CodeConfig) (tmpl : Option T) : Option Outcome :=
  match L.osCreate (L.pathJoin config.PackageName (tName ++ str ".go")) with
  | some err => some { file := none, err := some err }
  | none =>
    match buildModel L dbName tName schema config with
    | none => none
    | some model =>
      match renderPhases P tName model [] tmpl with
      | (w, err) => some { file := some w, err := err }

/-- Go: `GenerateModels` (lines 69-73).  `dbSchema` is a map; `tables` lists its entries
in the order the `range` loop visits them.  Every call passes `nil` as the template set and
the error it returns is dropped; the result is the file left behind for every table, in
the order visited (`none`: no file).  `none` overall is a panic. -/
def GenerateModels {T : Type} (L : Lib) (P : Templates T) (dbName : GoString)
    (config : CodeConfig) : List (GoString × TableSchema) → Option (List (GoString × Option Sink))
  | [] => some []
  | (tName, schema) :: rest =>
    match generateModel L P dbName tName schema config none with
    | none => none
    | some o =>
      match GenerateModels L P dbName config rest with
      | none => none
      | some files => some ((tName, o.file) :: files)

/-! ## Definitions used to state the properties -/

/-- The byte written for a letter that does not start a segment (lines 157-159). -/
def lowerByte (ch : Nat) : Nat := if isUpper ch then lowerOf ch else ch

/-- No run of non-alphanumeric bytes stands between two letters: `afterLetter` tells that
the last letter or digit read so far is a letter, `sep` that a non-alphanumeric byte has
been read since. -/
def noJoin : Bool → Bool → List Nat → Bool
  | _, _, [] => true
  | afterLetter, sep, ch :: rest =>
    if isLetter ch then !(afterLetter && sep) && noJoin true false rest
    else if isDigit ch then noJoin false false rest
    else noJoin afterLetter true rest

/-- Whether the loop body classifies the column as primary key (line 102). -/
def isPrimary (L : Lib) (col : Column) : Bool := decide (ToUpper L col.ColumnKey = str "PRI")

/-- The value of the `field` variable at the end of the loop body for `col`. -/
def fieldOf (L : Lib) (col : Column) : ModelField :=
  { Name := walk true true true false col.ColumnName
    ColumnName := col.ColumnName
    Type_ := col.DataType
    Tag := str "`" ++ stringsJoin
      [str "json:\"" ++ col.ColumnName ++ str "\"",
       if col.ColumnName = str "created_at" ∨ col.ColumnName = str "updated_at" then
         str "gorm:\"-\""
       else str "gorm:\"column:" ++ col.ColumnName ++ str "\""] (str ",") ++ str "`"
    IsPrimaryKey := isPrimary L col
    IsUniqueKey := decide (ToUpper L col.ColumnKey = str "UNI")
    IsAutoIncrement := decide (ToUpper L col.Extra = str "AUTO_INCREMENT")
    DefaultValue := col.DefaultValue
    Extra := col.Extra
    Comment := col.Comment }

/-- Index of the last column the loop classifies as primary key, if any. -/
def lastPrimary (L : Lib) : List Column → Option Nat
  | [] => none
  | col :: rest =>
    match lastPrimary L rest with
    | some k => some (k + 1)
    | none => if isPrimary L col then some 0 else none

/-- A letter or a digit. -/
def isAlnum (ch : Nat) : Bool := isLetter ch || isDigit ch

/-- The byte written for a letter that starts a segment and is upper-cased (lines 150-154). -/
def upperByte (ch : Nat) : Nat := if isLower ch then upperOf ch else ch

/-- The byte before position `i` of `name`; `none` at position 0. -/
def prevByte (name : GoString) (i : Nat) : Option Nat :=
  if i = 0 then none else name[i - 1]?

/-- The output contributed by the byte `ch` with the byte `prev` before it (`none` at
position 0).  A letter is lower-cased after a letter and upper-cased otherwise, except
that at position 0 with the flag false it is left as it is; a digit is copied, with an
underscore before it when the byte before it is neither letter nor digit; any other byte
contributes nothing. -/
def piece (firstLetterUpper : Bool) (prev : Option Nat) (ch : Nat) : List Nat :=
  if isLetter ch then
    match prev with
    | none => if firstLetterUpper then [upperByte ch] else [ch]
    | some p => if isLetter p then [lowerByte ch] else [upperByte ch]
  else if isDigit ch then
    match prev with
    | none => [ch]
    | some p => if isAlnum p then [ch] else [95, ch]
  else []

/-- The flags `segStart`, `isFirst`, `lastUnderScore` the loop holds when the byte before
the current position is `prev` (`none` at position 0). -/
def scanFlags (prev : Option Nat) : Bool × Bool × Bool :=
  match prev with
  | none => (true, true, false)
  | some p => (!isLetter p, false, !isAlnum p)

/-- The output contributed by position `i` of `name`. -/
def pieceAt (firstLetterUpper : Bool) (name : GoString) (i : Nat) : List Nat :=
  match name[i]? with
  | none => []
  | some ch => piece firstLetterUpper (prevByte name i) ch

/-- The number of positions of `name` that hold a digit and come immediately after a byte
that is neither letter nor digit. -/
def sepDigitCount (name : GoString) : Nat :=
  (name.zip name.tail).countP (fun p => !isAlnum p.1 && isDigit p.2)

/-- Whether every byte of the string is ASCII. -/
def asciiOnly (s : GoString) : Bool := s.all (fun c => decide (c < 128))

/-- Equality of two strings ignoring the case of the ASCII letters. -/
def equalFold (s t : GoString) : Bool := decide (s.map upperByte = t.map upperByte)

/-- The model the loop of `generateModel` ends with, in closed form (`buildModel_eq`). -/
def modelOf (L : Lib) (dbName tName : GoString) (schema : TableSchema)
    (config : CodeConfig) : Build :=
  { model :=
      { Name := walk true true true false tName
        LowerName := walk false true true false tName
        DbName := dbName
        TableName := tName
        PrimaryField := lastPrimary L schema
        Fields := schema.map (fieldOf L)
        Uniques := []
        config := config }
    heap := schema.map (fieldOf L) }

/-- The file `generateModel` leaves for a table when it is called with `nil` as the
template set: none when the creation fails, else what the three phases wrote. -/
def tableFile {T : Type} (L : Lib) (P : Templates T) (dbName : GoString) (config : CodeConfig)
    (ts : GoString × TableSchema) : Option Sink :=
  match L.osCreate (L.pathJoin config.PackageName (ts.1 ++ str ".go")) with
  | some _ => none
  | none => some (renderPhases P ts.1 (modelOf L dbName ts.1 ts.2 config) [] none).1

/-! ## Concrete inputs -/

/-- A column with the given name, key marker and extra attribute. -/
def mkColumn (name key extra : String) (ty dv cm : GoString) : Column :=
  { ColumnName := str name, DataType := ty, ColumnKey := str key, Extra := str extra,
    DefaultValue := dv, Comment := cm }

/-- The schema of the table `user_profile`: `id` (primary, auto-increment), `user_name`,
`created_at`, `updated_at`, with arbitrary types, defaults and comments. -/
def userProfile (t1 t2 t3 t4 d1 d2 d3 d4 c1 c2 c3 c4 : GoString) : TableSchema :=
  [mkColumn "id" "PRI" "auto_increment" t1 d1 c1, mkColumn "user_name" "" "" t2 d2 c2,
   mkColumn "created_at" "" "" t3 d3 c3, mkColumn "updated_at" "" "" t4 d4 c4]

/-- A library instance: strings with a non-ASCII byte are left as they are by the Unicode
mapping, `path.Join` puts a slash between its elements, file creation succeeds. -/
def sampleLib : Lib :=
  { unicodeUpper := fun s => s
    pathJoin := fun a b => a ++ str "/" ++ b
    osCreate := fun _ => none }

/-- A template library over numbered templates: template 7 defines `struct` as template 8,
whose execution fails with `boom`; every execution writes the number of its template. -/
def sampleTemplates : Templates Nat :=
  { Lookup := fun t name => if t = 7 ∧ name = str "struct" then some 8 else none
    Execute := fun t w _ => (w ++ [t], if t = 8 then some (str "boom") else none)
    tmHeader := 1
    tmStruct := 2
    tmObjApi := 3 }

/-- A configuration with package name `models`. -/
def sampleConfig : CodeConfig := { PackageName := str "models", Template := str "" }

/-- A library instance in which creating `models/a.go` fails with `denied` and every other
creation succeeds. -/
def failingLib : Lib :=
  { unicodeUpper := fun s => s
    pathJoin := fun a b => a ++ str "/" ++ b
    osCreate := fun p => if p = str "models/a.go" then some (str "denied") else none }

/-! ## The in-place scan computes `walk` -/

theorem take_set_succ {α : Type} (l : List α) (p : Nat) (b : α) (h : p < l.length) :
    (l.set p b).take (p + 1) = l.take p ++ [b] := by
  induction l generalizing p with
  | nil => simp at h
  | cons a t ih =>
    cases p with
    | zero => simp
    | succ q =>
      have hq : q < t.length := by simpa using h
      simp [ih q hq]

theorem drop_set_lt {α : Type} (l : List α) (p i : Nat) (b : α) (h : p < i) :
    (l.set p b).drop i = l.drop i := by
  induction l generalizing p i with
  | nil => simp
  | cons a t ih =>
    cases i with
    | zero => omega
    | succ j =>
      cases p with
      | zero => simp
      | succ q => simpa using ih q j (by omega)

theorem getElem?_of_drop {α : Type} (l : List α) (i : Nat) (ch : α) (rest : List α)
    (h : l.drop i = ch :: rest) : l[i]? = some ch ∧ l.drop (i + 1) = rest ∧ i < l.length := by
  induction l generalizing i with
  | nil => simp at h
  | cons a t ih =>
    cases i with
    | zero =>
      simp at h
      simp [h.1, h.2]
    | succ j =>
      have := ih j (by simpa using h)
      simpa using this

theorem scanLoop_walk (flu : Bool) (rest : List Nat) :
    ∀ (s : Scan) (i : Nat), s.data.drop i = rest → s.endPos ≤ i → i ≤ s.data.length →
      (s.lastUnderScore = true → s.endPos < i) →
      ∃ s1, scanLoop flu rest.length i s = some s1 ∧ s1.endPos ≤ s1.data.length ∧
        s1.data.length = s.data.length ∧
        s1.data.take s1.endPos =
          s.data.take s.endPos ++ walk flu s.segStart s.isFirst s.lastUnderScore rest := by
  induction rest with
  | nil =>
    intro s i _ he hi _
    exact ⟨s, rfl, by omega, rfl, by simp [walk]⟩
  | cons ch rest ih =>
    intro s i hd he hi hl
    obtain ⟨hget, hdrop, hlt⟩ := getElem?_of_drop s.data i ch rest hd
    have hep : s.endPos < s.data.length := by omega
    by_cases hL : isLetter ch = true
    · have hst : scanStep flu s i = some
          { data := s.data.set s.endPos (letterCase flu s.segStart s.isFirst ch),
            segStart := false, endPos := s.endPos + 1, isFirst := false,
            lastUnderScore := false } := by
        simp [scanStep, hget, hL, store, hep]
      obtain ⟨s1, h1, h2, h3, h4⟩ := ih
        { data := s.data.set s.endPos (letterCase flu s.segStart s.isFirst ch),
          segStart := false, endPos := s.endPos + 1, isFirst := false,
          lastUnderScore := false } (i + 1)
        (by simpa [drop_set_lt _ _ _ _ (Nat.lt_succ_of_le he)] using hdrop)
        (by simpa using he) (by simpa using hlt) (by simp)
      refine ⟨s1, ?_, h2, ?_, ?_⟩
      · simp [scanLoop, hst, h1]
      · simpa using h3
      · rw [h4]
        simp [walk, hL, take_set_succ _ _ _ hep]
    · by_cases hD : isDigit ch = true
      · by_cases hU : s.lastUnderScore = true
        · have hlt2 : s.endPos < i := hl hU
          have hep2 : s.endPos + 1 < s.data.length := by omega
          have hst : scanStep flu s i = some
              { data := (s.data.set s.endPos 95).set (s.endPos + 1) ch,
                segStart := true, endPos := s.endPos + 2, isFirst := false,
                lastUnderScore := false } := by
            simp [scanStep, hget, hL, hD, hU, store, hep, hep2]
          obtain ⟨s1, h1, h2, h3, h4⟩ := ih
            { data := (s.data.set s.endPos 95).set (s.endPos + 1) ch,
              segStart := true, endPos := s.endPos + 2, isFirst := false,
              lastUnderScore := false } (i + 1)
            (by
              simp only
              rw [drop_set_lt _ _ _ _ (by omega), drop_set_lt _ _ _ _ (by omega)]
              exact hdrop)
            (by simp; omega) (by simpa using hlt) (by simp)
          refine ⟨s1, ?_, h2, ?_, ?_⟩
          · simp [scanLoop, hst, h1]
          · simpa using h3
          · rw [h4]
            have e1 := take_set_succ (s.data.set s.endPos 95) (s.endPos + 1) ch
              (by simpa using hep2)
            have e2 := take_set_succ s.data s.endPos 95 hep
            simp only [walk, hL, hD, hU]
            simp [e1, e2]
        · have hst : scanStep flu s i = some
              { data := s.data.set s.endPos ch,
                segStart := true, endPos := s.endPos + 1, isFirst := false,
                lastUnderScore := false } := by
            simp [scanStep, hget, hL, hD, hU, store, hep]
          obtain ⟨s1, h1, h2, h3, h4⟩ := ih
            { data := s.data.set s.endPos ch,
              segStart := true, endPos := s.endPos + 1, isFirst := false,
              lastUnderScore := false } (i + 1)
            (by simpa [drop_set_lt _ _ _ _ (Nat.lt_succ_of_le he)] using hdrop)
            (by simpa using he) (by simpa using hlt) (by simp)
          refine ⟨s1, ?_, h2, ?_, ?_⟩
          · simp [scanLoop, hst, h1]
          · simpa using h3
          · rw [h4]
            simp [walk, hL, hD, hU, take_set_succ _ _ _ hep]
      · have hst : scanStep flu s i = some
            { s with segStart := true, isFirst := false, lastUnderScore := true } := by
          simp [scanStep, hget, hL, hD]
        obtain ⟨s1, h1, h2, h3, h4⟩ := ih
          { s with segStart := true, isFirst := false, lastUnderScore := true } (i + 1)
          (by simpa using hdrop) (by simp; omega) (by simpa using hlt) (by simp; omega)
        refine ⟨s1, ?_, h2, ?_, ?_⟩
        · simp [scanLoop, hst, h1]
        · simpa using h3
        · rw [h4]
          simp [walk, hL, hD]

/-- The in-place scan never panics and returns the accumulated output. -/
theorem toCapitalCase_eq_walk (name : GoString) (flu : Bool) :
    toCapitalCase name flu = some (walk flu true true false name) := by
  obtain ⟨s1, h1, h2, _, h4⟩ := scanLoop_walk flu name
    { data := name, segStart := true, endPos := 0, isFirst := true, lastUnderScore := false }
    0 (by simp) (by simp) (by simp) (by simp)
  simp [toCapitalCase, h1, h2, h4]

/-! ## Bytes and letter case -/

theorem isLetter_letterCase (flu ss isF : Bool) (ch : Nat) (h : isLetter ch = true) :
    isLetter (letterCase flu ss isF ch) = true := by
  simp only [isLetter, isLower, isUpper, Bool.or_eq_true, Bool.and_eq_true,
    decide_eq_true_eq] at h
  unfold letterCase
  split
  · split
    · split
      · simp only [isLetter, isLower, isUpper, upperOf, Bool.or_eq_true, Bool.and_eq_true,
          decide_eq_true_eq]
        rename_i h1 _
        simp only [isLower, Bool.and_eq_true, decide_eq_true_eq] at h1
        omega
      · simpa [isLetter, isLower, isUpper] using h
    · simpa [isLetter, isLower, isUpper] using h
  · split
    · simp only [isLetter, isLower, isUpper, lowerOf, Bool.or_eq_true, Bool.and_eq_true,
        decide_eq_true_eq]
      rename_i h1
      simp only [isUpper, Bool.and_eq_true, decide_eq_true_eq] at h1
      omega
    · simpa [isLetter, isLower, isUpper] using h

theorem isLower_upperOf (ch : Nat) (h : isLower ch = true) : isLower (upperOf ch) = false := by
  simp only [isLower, Bool.and_eq_true, decide_eq_true_eq] at h
  simp only [isLower, upperOf, Bool.and_eq_false_iff, decide_eq_false_iff_not]
  omega

theorem isUpper_lowerOf (ch : Nat) (h : isUpper ch = true) : isUpper (lowerOf ch) = false := by
  simp only [isUpper, Bool.and_eq_true, decide_eq_true_eq] at h
  simp only [isUpper, lowerOf, Bool.and_eq_false_iff, decide_eq_false_iff_not]
  omega

theorem letterCase_mid_idem (flu : Bool) (ch : Nat) :
    letterCase flu false false (letterCase flu false false ch) = letterCase flu false false ch := by
  by_cases h : isUpper ch = true
  · simp [letterCase, h, isUpper_lowerOf ch h]
  · simp [letterCase, h]

theorem letterCase_start_idem (flu isF isF2 : Bool) (ch : Nat) (h : isF = true → isF2 = true) :
    letterCase flu true isF2 (letterCase flu true isF ch) = letterCase flu true isF ch := by
  by_cases hl : isLower ch = true
  · cases isF <;> cases isF2 <;> cases flu <;>
      simp_all [letterCase, isLower_upperOf ch hl]
  · simp [letterCase, hl]

theorem walk_fixed (flu : Bool) (x : List Nat) :
    (noJoin true false x = true →
      walk flu false false false (walk flu false false false x) =
        walk flu false false false x) ∧
    (noJoin true true x = true →
      walk flu false false false (walk flu true false true x) = walk flu true false true x) ∧
    (∀ isF isF2 lus sep, (isF = true → isF2 = true) → noJoin false sep x = true →
      walk flu true isF2 false (walk flu true isF lus x) = walk flu true isF lus x) := by
  induction x with
  | nil => simp [walk]
  | cons c x ih =>
    obtain ⟨ihA, ihB, ihC⟩ := ih
    have h95 : isLetter 95 = false ∧ isDigit 95 = false := by decide
    by_cases hL : isLetter c = true
    · refine ⟨?_, ?_, ?_⟩
      · intro h
        have h2 : noJoin true false x = true := by simpa [noJoin, hL] using h
        simp [walk, hL, isLetter_letterCase, letterCase_mid_idem, ihA h2]
      · intro h
        simp [noJoin, hL] at h
      · intro isF isF2 lus sep hF h
        have h2 : noJoin true false x = true := by simpa [noJoin, hL] using h
        simp [walk, hL, isLetter_letterCase, letterCase_start_idem flu isF isF2 c hF, ihA h2]
    · by_cases hD : isDigit c = true
      · refine ⟨?_, ?_, ?_⟩
        · intro h
          have h2 : noJoin false false x = true := by simpa [noJoin, hL, hD] using h
          simp [walk, hL, hD, ihC false false false false (by simp) h2]
        · intro h
          have h2 : noJoin false false x = true := by simpa [noJoin, hL, hD] using h
          simp [walk, hL, hD, h95, ihC false false false false (by simp) h2]
        · intro isF isF2 lus sep _ h
          have h2 : noJoin false false x = true := by simpa [noJoin, hL, hD] using h
          cases lus <;> simp [walk, hL, hD, h95, ihC false false false false (by simp) h2]
      · refine ⟨?_, ?_, ?_⟩
        · intro h
          have h2 : noJoin true true x = true := by simpa [noJoin, hL, hD] using h
          simpa [walk, hL, hD] using ihB h2
        · intro h
          have h2 : noJoin true true x = true := by simpa [noJoin, hL, hD] using h
          simpa [walk, hL, hD] using ihB h2
        · intro isF isF2 lus sep _ h
          have h2 : noJoin false true x = true := by simpa [noJoin, hL, hD] using h
          simpa [walk, hL, hD] using ihC false isF2 true true (by simp) h2

theorem walk_flag_irrelevant (ss lus : Bool) (x : List Nat) :
    walk true ss false lus x = walk false ss false lus x := by
  induction x generalizing ss lus with
  | nil => simp [walk]
  | cons c x ih =>
    by_cases hL : isLetter c = true
    · simp [walk, hL, ih, letterCase]
    · by_cases hD : isDigit c = true
      · cases lus <;> simp [walk, hL, hD, ih]
      · simp [walk, hL, hD, ih]

theorem walk_segment (flu : Bool) (seg tail : List Nat) (h : ∀ x ∈ seg, isLetter x = true) :
    walk flu false false false (seg ++ tail) =
      seg.map lowerByte ++ walk flu false false false tail := by
  induction seg with
  | nil => simp
  | cons c seg ih =>
    have hc : isLetter c = true := h c (by simp)
    have ih2 := ih (fun x hx => h x (by simp [hx]))
    simp [walk, hc, ih2, letterCase, lowerByte]

theorem isLower_lowerByte (x : Nat) (h : isLetter x = true) : isLower (lowerByte x) = true := by
  simp only [isLetter, isLower, isUpper, Bool.or_eq_true, Bool.and_eq_true,
    decide_eq_true_eq] at h
  unfold lowerByte
  split
  · rename_i h1
    simp only [isUpper, Bool.and_eq_true, decide_eq_true_eq] at h1
    simp only [isLower, lowerOf, Bool.and_eq_true, decide_eq_true_eq]
    omega
  · rename_i h1
    simp only [isUpper, Bool.and_eq_true, decide_eq_true_eq, not_and, not_le] at h1
    simp only [isLower, Bool.and_eq_true, decide_eq_true_eq]
    omega

theorem isLetter_of_isLower (c : Nat) (h : isLower c = true) : isLetter c = true := by
  simp [isLetter, h]

/-! ## The model builder in closed form -/

theorem heap_alloc_write {α : Type} (h : List α) (f g : α) :
    (h ++ [f]).set h.length g = h ++ [g] := by
  induction h with
  | nil => rfl
  | cons a t ih => simp [ih]

theorem heap_read_last {α : Type} (h : List α) (g : α) :
    (h ++ [g])[h.length]? = some g := by
  induction h with
  | nil => rfl
  | cons a t ih => simp

theorem buildStep_eq (L : Lib) (st : Build) (i : Nat) (col : Column)
    (hi : i < st.model.Fields.length) :
    buildStep L st i col = some
      { model :=
          { st.model with
            PrimaryField :=
              if isPrimary L col then some st.heap.length else st.model.PrimaryField
            Fields := st.model.Fields.set i (fieldOf L col) }
        heap := st.heap ++ [fieldOf L col] } := by
  unfold buildStep
  rw [toCapitalCase_eq_walk]
  simp only [heap_alloc_write, heap_read_last, store]
  by_cases hp : isPrimary L col = true
  · have hp2 : ToUpper L col.ColumnKey = str "PRI" := by simpa [isPrimary] using hp
    simp [hp, hp2, hi, fieldOf, isPrimary]
  · have hp2 : ¬ ToUpper L col.ColumnKey = str "PRI" := by simpa [isPrimary] using hp
    simp [hp, hp2, hi, fieldOf, isPrimary]

theorem buildLoop_eq (L : Lib) (rest : List Column) :
    ∀ (i : Nat) (st : Build), i + rest.length ≤ st.model.Fields.length →
      buildLoop L i rest st = some
        { model :=
            { st.model with
              PrimaryField :=
                match lastPrimary L rest with
                | some k => some (st.heap.length + k)
                | none => st.model.PrimaryField
              Fields := st.model.Fields.take i ++ rest.map (fieldOf L) ++
                st.model.Fields.drop (i + rest.length) }
          heap := st.heap ++ rest.map (fieldOf L) } := by
  induction rest with
  | nil =>
    intro i st _
    simp [buildLoop, lastPrimary]
  | cons col rest ih =>
    intro i st h
    have hi : i < st.model.Fields.length := by
      simp only [List.length_cons] at h
      omega
    have hst := buildStep_eq L st i col hi
    simp only [buildLoop, hst]
    rw [ih (i + 1) _ (by simp only [List.length_set, List.length_cons] at h ⊢; omega)]
    have e1 := take_set_succ st.model.Fields i (fieldOf L col) hi
    have e2 := drop_set_lt st.model.Fields i (i + 1 + rest.length) (fieldOf L col) (by omega)
    have e3 : i + (rest.length + 1) = i + 1 + rest.length := by omega
    simp only [e1, e2, List.length_append, List.length_singleton, List.map_cons,
      List.length_cons, e3, lastPrimary]
    cases hlp : lastPrimary L rest with
    | none =>
      by_cases hp : isPrimary L col = true
      · simp [hp]
      · simp [hp]
    | some k =>
      simp
      omega

theorem buildModel_eq (L : Lib) (dbName tName : GoString) (schema : TableSchema)
    (config : CodeConfig) :
    buildModel L dbName tName schema config = some
      { model :=
          { Name := walk true true true false tName
            LowerName := walk false true true false tName
            DbName := dbName
            TableName := tName
            PrimaryField := lastPrimary L schema
            Fields := schema.map (fieldOf L)
            Uniques := []
            config := config }
        heap := schema.map (fieldOf L) } := by
  unfold buildModel
  simp only [toCapitalCase_eq_walk]
  rw [buildLoop_eq L schema 0 _ (by simp)]
  cases h : lastPrimary L schema <;> simp

theorem lastPrimary_none (L : Lib) (schema : List Column) (h : lastPrimary L schema = none) :
    ∀ c ∈ schema, isPrimary L c = false := by
  induction schema with
  | nil => simp
  | cons col rest ih =>
    simp only [lastPrimary] at h
    cases hr : lastPrimary L rest with
    | some k => simp [hr] at h
    | none =>
      simp only [hr] at h
      by_cases hp : isPrimary L col = true
      · simp [hp] at h
      · intro c hc
        rcases List.mem_cons.mp hc with rfl | hc
        · simpa using hp
        · exact ih hr c hc

theorem lastPrimary_some (L : Lib) (schema : List Column) (k : Nat)
    (h : lastPrimary L schema = some k) :
    ∃ c, schema[k]? = some c ∧ isPrimary L c = true := by
  induction schema generalizing k with
  | nil => simp [lastPrimary] at h
  | cons col rest ih =>
    simp only [lastPrimary] at h
    cases hr : lastPrimary L rest with
    | some j =>
      simp only [hr, Option.some.injEq] at h
      subst h
      simpa using ih j hr
    | none =>
      simp only [hr] at h
      by_cases hp : isPrimary L col = true
      · simp only [hp, if_true, Option.some.injEq] at h
        subst h
        exact ⟨col, by simp, hp⟩
      · simp [hp] at h

/-! ## Claims about `toCapitalCase` -/

/-- C1, as stated, fails: `toCapitalCase("created_at", true)` is `"CreatedAt"`, and applying
`toCapitalCase` to that output with the same flag gives `"Createdat"`, not `"CreatedAt"`. -/
theorem toCapitalCase_not_idempotent :
    toCapitalCase (str "created_at") true = some (str "CreatedAt") ∧
    toCapitalCase (str "CreatedAt") true = some (str "Createdat") ∧
    toCapitalCase (str "CreatedAt") true ≠ some (str "CreatedAt") := by
  decide

/-- C1 (amended): for every name in which no run of non-alphanumeric bytes stands between
two letters, and every value of `firstLetterUpper`, `toCapitalCase` returns a string on
which it is idempotent: `toCapitalCase(toCapitalCase(name, b), b) = toCapitalCase(name, b)`. -/
theorem toCapitalCase_idempotent_of_noJoin (name : GoString) (firstLetterUpper : Bool)
    (h : noJoin false false name = true) :
    ∃ out, toCapitalCase name firstLetterUpper = some out ∧
      toCapitalCase out firstLetterUpper = some out := by
  refine ⟨walk firstLetterUpper true true false name, toCapitalCase_eq_walk _ _, ?_⟩
  rw [toCapitalCase_eq_walk]
  exact congrArg some
    ((walk_fixed firstLetterUpper name).2.2 true true false false (by simp) h)

/-- The name `user2_id` has no two letters joined across a separator, and `toCapitalCase`
is idempotent on it. -/
theorem toCapitalCase_idempotent_of_noJoin_witness :
    noJoin false false (str "user2_id") = true ∧
    ∃ out, toCapitalCase (str "user2_id") true = some out ∧
      toCapitalCase out true = some out :=
  ⟨by decide, toCapitalCase_idempotent_of_noJoin (str "user2_id") true (by decide)⟩

/-- C2: `toCapitalCase("created_at", true)` is `"CreatedAt"`, `toCapitalCase("created_at",
false)` is `"createdAt"` and `toCapitalCase("id", true)` is `"Id"`. -/
theorem toCapitalCase_examples :
    toCapitalCase (str "created_at") true = some (str "CreatedAt") ∧
    toCapitalCase (str "created_at") false = some (str "createdAt") ∧
    toCapitalCase (str "id") true = some (str "Id") := by
  decide

/-- C10, as stated, fails: `toCapitalCase("ID", false)` is `"Id"`, not `"id"`; the first
letter of the first alphabetic segment is left in upper case.  A letter that follows a
leading separator is upper-cased as well: `toCapitalCase("_ab", false)` is `"Ab"`. -/
theorem toCapitalCase_upper_first_kept :
    toCapitalCase (str "ID") false = some (str "Id") ∧
    toCapitalCase (str "ID") false ≠ some (str "id") ∧
    toCapitalCase (str "_ab") false = some (str "Ab") := by
  decide

/-- C10 (amended): for every name whose first byte `c` is a lower-case letter, followed by
letters `seg` and then anything, `toCapitalCase(name, false)` starts with `c` itself, left
in lower case, followed by the letters of `seg` in lower case; `toCapitalCase(name, true)`
is the same string with `c` upper-cased, so the model's `LowerName` is its `Name` with a
lower-cased first letter. -/
theorem toCapitalCase_lower_first (c : Nat) (seg tail : List Nat)
    (hc : isLower c = true) (hseg : ∀ x ∈ seg, isLetter x = true) :
    ∃ out,
      toCapitalCase (c :: (seg ++ tail)) false = some (c :: (seg.map lowerByte ++ out)) ∧
      toCapitalCase (c :: (seg ++ tail)) true =
        some (upperOf c :: (seg.map lowerByte ++ out)) ∧
      (∀ y ∈ seg.map lowerByte, isLower y = true) ∧
      ∀ (L : Lib) (dbName : GoString) (schema : TableSchema) (config : CodeConfig),
        ∃ b, buildModel L dbName (c :: (seg ++ tail)) schema config = some b ∧
          b.model.LowerName = c :: (seg.map lowerByte ++ out) ∧
          b.model.Name = upperOf c :: (seg.map lowerByte ++ out) := by
  have hl := isLetter_of_isLower c hc
  have e1 : walk false true true false (c :: (seg ++ tail)) =
      c :: (seg.map lowerByte ++ walk false false false false tail) := by
    simp [walk, hl, letterCase, hc, walk_segment false seg tail hseg]
  have e2 : walk true true true false (c :: (seg ++ tail)) =
      upperOf c :: (seg.map lowerByte ++ walk false false false false tail) := by
    simp [walk, hl, letterCase, hc, walk_segment true seg tail hseg, walk_flag_irrelevant]
  refine ⟨walk false false false false tail, ?_, ?_, ?_, ?_⟩
  · rw [toCapitalCase_eq_walk, e1]
  · rw [toCapitalCase_eq_walk, e2]
  · intro y hy
    obtain ⟨x, hx, rfl⟩ := List.mem_map.mp hy
    exact isLower_lowerByte x (hseg x hx)
  · intro L dbName schema config
    exact ⟨_, buildModel_eq L dbName _ schema config, e1, e2⟩

/-- For the name `iD_x`: the result with the flag false starts with `id`, the result with
the flag true is the same string starting with `Id`. -/
theorem toCapitalCase_lower_first_witness :
    isLower 105 = true ∧ (∀ x ∈ [68], isLetter x = true) ∧
    ∃ out,
      toCapitalCase (str "iD_x") false = some (str "id" ++ out) ∧
      toCapitalCase (str "iD_x") true = some (str "Id" ++ out) := by
  refine ⟨by decide, by decide, ?_⟩
  obtain ⟨out, h1, h2, _, _⟩ :=
    toCapitalCase_lower_first 105 [68] (str "_x") (by decide) (by decide)
  exact ⟨out, h1, h2⟩

/-! ## Claims about the model builder -/

/-- C3: for every table schema the model built by `generateModel` has exactly one field per
column, in column order: `len(Fields) = len(schema)` and, for every index `i`, `Fields[i]`
has the column name of column `i`, the name `toCapitalCase(ColumnName, true)`, and the
type, default value, extra attribute and comment of column `i`. -/
theorem generateModel_fields (L : Lib) (dbName tName : GoString) (schema : TableSchema)
    (config : CodeConfig) :
    ∃ b, buildModel L dbName tName schema config = some b ∧
      b.model.Fields.length = schema.length ∧
      ∀ (i : Nat) (col : Column), schema[i]? = some col →
        ∃ f : ModelField, b.model.Fields[i]? = some f ∧
          f.ColumnName = col.ColumnName ∧
          toCapitalCase col.ColumnName true = some f.Name ∧
          f.Type_ = col.DataType ∧ f.DefaultValue = col.DefaultValue ∧
          f.Extra = col.Extra ∧ f.Comment = col.Comment := by
  refine ⟨_, buildModel_eq L dbName tName schema config, by simp, ?_⟩
  intro i col hcol
  refine ⟨fieldOf L col, by simp [hcol], rfl, ?_, rfl, rfl, rfl, rfl⟩
  rw [toCapitalCase_eq_walk]
  rfl

/-- C4: for every column with name `c` the tag of the built field depends only on `c`: it
is the backtick-wrapped `json:"c",gorm:"-"` when `c` is `created_at` or `updated_at`, and
the backtick-wrapped `json:"c",gorm:"column:c"` for every other `c`. -/
theorem generateModel_tag (L : Lib) (dbName tName : GoString) (schema : TableSchema)
    (config : CodeConfig) :
    ∃ b, buildModel L dbName tName schema config = some b ∧
      ∀ (i : Nat) (col : Column), schema[i]? = some col →
        ∃ f : ModelField, b.model.Fields[i]? = some f ∧
          (col.ColumnName = str "created_at" ∨ col.ColumnName = str "updated_at" →
            f.Tag = str "`json:\"" ++ col.ColumnName ++ str "\",gorm:\"-\"`") ∧
          (¬ (col.ColumnName = str "created_at" ∨ col.ColumnName = str "updated_at") →
            f.Tag = str "`json:\"" ++ col.ColumnName ++ str "\",gorm:\"column:" ++
              col.ColumnName ++ str "\"`") := by
  refine ⟨_, buildModel_eq L dbName tName schema config, ?_⟩
  intro i col hcol
  refine ⟨fieldOf L col, by simp [hcol], ?_, ?_⟩
  · intro h
    simp only [fieldOf, if_pos h, stringsJoin, List.intercalate, List.intersperse,
      List.flatten, List.append_assoc, List.append_nil]
    rfl
  · intro h
    simp only [fieldOf, if_neg h, stringsJoin, List.intercalate, List.intersperse,
      List.flatten, List.append_assoc, List.append_nil]
    rfl

/-- C5: when exactly one column of the schema is classified as primary, `PrimaryField` is
set and points to a field equal, in every attribute including `Tag`, to that column's entry
in `Fields`; when no column is classified as primary, `PrimaryField` is nil. -/
theorem generateModel_primaryField (L : Lib) (dbName tName : GoString) (schema : TableSchema)
    (config : CodeConfig) :
    ∃ b, buildModel L dbName tName schema config = some b ∧
      (∀ (j : Nat) (col : Column), schema[j]? = some col → isPrimary L col = true →
        (∀ (k : Nat) (c : Column), schema[k]? = some c → isPrimary L c = true → k = j) →
        ∃ (a : Nat) (f : ModelField), b.model.PrimaryField = some a ∧ b.heap[a]? = some f ∧
          b.primaryField = some f ∧ b.model.Fields[j]? = some f) ∧
      ((∀ c ∈ schema, isPrimary L c = false) →
        b.model.PrimaryField = none ∧ b.primaryField = none) := by
  refine ⟨_, buildModel_eq L dbName tName schema config, ?_, ?_⟩
  · intro j col hcol hp huniq
    cases hl : lastPrimary L schema with
    | none =>
      have := lastPrimary_none L schema hl col (List.getElem?_mem hcol)
      simp [hp] at this
    | some k =>
      obtain ⟨c, hc, hpc⟩ := lastPrimary_some L schema k hl
      have hk : k = j := huniq k c hc hpc
      subst hk
      refine ⟨k, fieldOf L col, ?_, ?_, ?_, ?_⟩
      · simp
      · simp [hcol]
      · simp [Build.primaryField, hl, hcol]
      · simp [hcol]
  · intro hnone
    cases hl : lastPrimary L schema with
    | none => simp [Build.primaryField, hl]
    | some k =>
      obtain ⟨c, hc, hpc⟩ := lastPrimary_some L schema k hl
      have := hnone c (List.getElem?_mem hc)
      simp [hpc] at this

/-- For the schema with the columns `id` (key `pri`) and `name`, exactly column 0 is
primary: `PrimaryField` points to a field equal to `Fields[0]`.  For the schema with the
column `name` alone, `PrimaryField` is nil. -/
theorem generateModel_primaryField_witness :
    (∃ (b : Build) (f : ModelField),
      buildModel sampleLib (str "db") (str "user")
        [mkColumn "id" "pri" "" [] [] [], mkColumn "name" "" "" [] [] []] sampleConfig
        = some b ∧
      b.primaryField = some f ∧ b.model.Fields[0]? = some f) ∧
    (∃ b : Build,
      buildModel sampleLib (str "db") (str "user") [mkColumn "name" "" "" [] [] []]
        sampleConfig = some b ∧
      b.model.PrimaryField = none) := by
  constructor
  · obtain ⟨b, hb, h1, _⟩ := generateModel_primaryField sampleLib (str "db") (str "user")
      [mkColumn "id" "pri" "" [] [] [], mkColumn "name" "" "" [] [] []] sampleConfig
    obtain ⟨a, f, _, _, hpf, hf⟩ := h1 0 (mkColumn "id" "pri" "" [] [] []) rfl (by decide)
      (by
        intro k c hk hp
        match k with
        | 0 => rfl
        | 1 =>
          have hc : c = mkColumn "name" "" "" [] [] [] := by
            simpa using hk.symm
          subst hc
          revert hp
          decide
        | n + 2 => simp at hk)
    exact ⟨b, f, hb, hpf, hf⟩
  · obtain ⟨b, hb, _, h2⟩ := generateModel_primaryField sampleLib (str "db") (str "user")
      [mkColumn "name" "" "" [] [] []] sampleConfig
    exact ⟨b, hb, (h2 (by decide)).1⟩

/-- C6: for the table `user_profile` with the columns `id` (key `PRI`, extra
`auto_increment`), `user_name`, `created_at`, `updated_at`, the model's name is
`UserProfile`, its field names are `Id`, `UserName`, `CreatedAt`, `UpdatedAt` in that
order, `id` and `user_name` carry `gorm:"column:id"` and `gorm:"column:user_name"`,
`created_at` and `updated_at` carry `gorm:"-"`, and `PrimaryField` is the `Id` field, with
`IsAutoIncrement` true. -/
theorem generateModel_user_profile (L : Lib) (dbName : GoString) (config : CodeConfig)
    (t1 t2 t3 t4 d1 d2 d3 d4 c1 c2 c3 c4 : GoString) :
    ∃ (b : Build) (idField : ModelField),
      buildModel L dbName (str "user_profile")
        (userProfile t1 t2 t3 t4 d1 d2 d3 d4 c1 c2 c3 c4) config = some b ∧
      b.model.Name = str "UserProfile" ∧
      b.model.Fields.map (fun f => f.Name) =
        [str "Id", str "UserName", str "CreatedAt", str "UpdatedAt"] ∧
      b.model.Fields.map (fun f => f.Tag) =
        [str "`json:\"id\",gorm:\"column:id\"`",
         str "`json:\"user_name\",gorm:\"column:user_name\"`",
         str "`json:\"created_at\",gorm:\"-\"`",
         str "`json:\"updated_at\",gorm:\"-\"`"] ∧
      b.primaryField = some idField ∧ b.model.Fields[0]? = some idField ∧
      idField.Name = str "Id" ∧ idField.IsPrimaryKey = true ∧
      idField.IsAutoIncrement = true := by
  refine ⟨_, fieldOf L (mkColumn "id" "PRI" "auto_increment" t1 d1 c1),
    buildModel_eq _ _ _ _ _, ?_, ?_, ?_, ?_, ?_, ?_, ?_, ?_⟩
  · show walk true true true false (str "user_profile") = str "UserProfile"
    decide
  · rfl
  · rfl
  · rfl
  · rfl
  · rfl
  · rfl
  · rfl

/-! ## Claims about templates and rendering -/

/-- C7: `getTemplate` returns the template the user set defines under the section name when
a set is supplied and defines that name, and the built-in default otherwise: when no set is
supplied, or when the set does not define the name. -/
theorem getTemplate_policy {T : Type} (P : Templates T) (tmpl : Option T) (name : GoString)
    (defaultTmpl : T) :
    (∀ t definedTmpl, tmpl = some t → P.Lookup t name = some definedTmpl →
      getTemplate P tmpl name defaultTmpl = definedTmpl) ∧
    (tmpl = none → getTemplate P tmpl name defaultTmpl = defaultTmpl) ∧
    (∀ t, tmpl = some t → P.Lookup t name = none →
      getTemplate P tmpl name defaultTmpl = defaultTmpl) := by
  refine ⟨?_, ?_, ?_⟩
  · intro t d ht hl
    simp [getTemplate, ht, hl]
  · intro ht
    simp [getTemplate, ht]
  · intro t ht hl
    simp [getTemplate, ht, hl]

/-- With the sample templates: set 7 defines `struct` (as template 8) and not `header`. -/
theorem getTemplate_policy_witness :
    getTemplate sampleTemplates (some 7) (str "struct") 2 = 8 ∧
    getTemplate sampleTemplates none (str "struct") 2 = 2 ∧
    getTemplate sampleTemplates (some 7) (str "header") 1 = 1 :=
  ⟨(getTemplate_policy sampleTemplates (some 7) (str "struct") 2).1 7 8 rfl (by decide),
   (getTemplate_policy sampleTemplates none (str "struct") 2).2.1 rfl,
   (getTemplate_policy sampleTemplates (some 7) (str "header") 1).2.2 7 rfl (by decide)⟩

/-- C8: rendering with a template set that defines none of the section names `header`,
`struct`, `obj_api` gives the same result as rendering with no template set: for each of
`GenHeader`, `GenStruct`, `GenObjectApi`, for the three in sequence, and for
`generateModel` as a whole. -/
theorem render_without_override {T : Type} (L : Lib) (P : Templates T) (t : T)
    (hh : P.Lookup t (str "header") = none) (hs : P.Lookup t (str "struct") = none)
    (ho : P.Lookup t (str "obj_api") = none) :
    (∀ (m : Build) (w : Sink) (importTime : Bool),
      GenHeader P m w (some t) importTime = GenHeader P m w none importTime ∧
      GenStruct P m w (some t) = GenStruct P m w none ∧
      GenObjectApi P m w (some t) = GenObjectApi P m w none) ∧
    (∀ (tName : GoString) (m : Build) (w : Sink),
      renderPhases P tName m w (some t) = renderPhases P tName m w none) ∧
    (∀ (dbName tName : GoString) (schema : TableSchema) (config : CodeConfig),
      generateModel L P dbName tName schema config (some t) =
        generateModel L P dbName tName schema config none) := by
  have gh : ∀ (m : Build) (w : Sink) (b : Bool),
      GenHeader P m w (some t) b = GenHeader P m w none b := by
    intro m w b
    simp [GenHeader, getTemplate, hh]
  have gs : ∀ (m : Build) (w : Sink), GenStruct P m w (some t) = GenStruct P m w none := by
    intro m w
    simp [GenStruct, getTemplate, hs]
  have go : ∀ (m : Build) (w : Sink),
      GenObjectApi P m w (some t) = GenObjectApi P m w none := by
    intro m w
    simp [GenObjectApi, getTemplate, ho]
  have rp : ∀ (tName : GoString) (m : Build) (w : Sink),
      renderPhases P tName m w (some t) = renderPhases P tName m w none := by
    intro tName m w
    simp [renderPhases, gh, gs, go]
  refine ⟨fun m w b => ⟨gh m w b, gs m w, go m w⟩, rp, ?_⟩
  intro dbName tName schema config
  simp [generateModel, rp]

/-- The sample template set 0 defines no section; generating the table `user` with it
gives the result of generating with no set, the output of the three default templates. -/
theorem render_without_override_witness :
    sampleTemplates.Lookup 0 (str "header") = none ∧
    sampleTemplates.Lookup 0 (str "struct") = none ∧
    sampleTemplates.Lookup 0 (str "obj_api") = none ∧
    generateModel sampleLib sampleTemplates (str "db") (str "user") [] sampleConfig (some 0) =
      generateModel sampleLib sampleTemplates (str "db") (str "user") [] sampleConfig none ∧
    generateModel sampleLib sampleTemplates (str "db") (str "user") [] sampleConfig none =
      some { file := some [1, 2, 3], err := none } :=
  ⟨by decide, by decide, by decide,
   (render_without_override sampleLib sampleTemplates 0 (by decide) (by decide)
    (by decide)).2.2 (str "db") (str "user") [] sampleConfig, by decide⟩

/-- C9: when the output file is created, `generateModel` runs the phases header, struct,
object API in that order into the same sink.  If the template execution of a phase fails
with error `e`, the file holds what was written up to and including that phase, no later
phase is executed, and the returned error is `[<table>] Fail to gen model header, <e>`,
`[<table>] Fail to gen model struct, <e>` or `[<table>] Fail to gen model object api, <e>`;
if all three succeed the returned error is nil. -/
theorem generateModel_phases {T : Type} (L : Lib) (P : Templates T) (dbName tName : GoString)
    (schema : TableSchema) (config : CodeConfig) (tmpl : Option T)
    (hc : L.osCreate (L.pathJoin config.PackageName (tName ++ str ".go")) = none) :
    ∃ m, buildModel L dbName tName schema config = some m ∧
      (∀ e, (GenHeader P m [] tmpl true).2 = some e →
        generateModel L P dbName tName schema config tmpl = some
          { file := some (GenHeader P m [] tmpl true).1
            err := some (str "[" ++ tName ++ str "] Fail to gen model header, " ++ e) }) ∧
      ((GenHeader P m [] tmpl true).2 = none →
        ∀ e, (GenStruct P m (GenHeader P m [] tmpl true).1 tmpl).2 = some e →
        generateModel L P dbName tName schema config tmpl = some
          { file := some (GenStruct P m (GenHeader P m [] tmpl true).1 tmpl).1
            err := some (str "[" ++ tName ++ str "] Fail to gen model struct, " ++ e) }) ∧
      ((GenHeader P m [] tmpl true).2 = none →
        (GenStruct P m (GenHeader P m [] tmpl true).1 tmpl).2 = none →
        ∀ e, (GenObjectApi P m (GenStruct P m (GenHeader P m [] tmpl true).1 tmpl).1 tmpl).2
            = some e →
        generateModel L P dbName tName schema config tmpl = some
          { file := some
              (GenObjectApi P m (GenStruct P m (GenHeader P m [] tmpl true).1 tmpl).1 tmpl).1
            err := some (str "[" ++ tName ++ str "] Fail to gen model object api, " ++ e) }) ∧
      ((GenHeader P m [] tmpl true).2 = none →
        (GenStruct P m (GenHeader P m [] tmpl true).1 tmpl).2 = none →
        (GenObjectApi P m (GenStruct P m (GenHeader P m [] tmpl true).1 tmpl).1 tmpl).2
          = none →
        generateModel L P dbName tName schema config tmpl = some
          { file := some
              (GenObjectApi P m (GenStruct P m (GenHeader P m [] tmpl true).1 tmpl).1 tmpl).1
            err := none }) := by
  refine ⟨_, buildModel_eq L dbName tName schema config, ?_, ?_, ?_, ?_⟩
  · intro e he
    simp only [generateModel, hc, buildModel_eq, renderPhases]
    generalize GenHeader P _ [] tmpl true = r at he ⊢
    obtain ⟨w1, e1⟩ := r
    simp only at he
    subst he
    rfl
  · intro hh e he
    simp only [generateModel, hc, buildModel_eq, renderPhases]
    generalize GenHeader P _ [] tmpl true = r at hh he ⊢
    obtain ⟨w1, e1⟩ := r
    simp only at hh
    subst hh
    simp only at he ⊢
    generalize GenStruct P _ w1 tmpl = r2 at he ⊢
    obtain ⟨w2, e2⟩ := r2
    simp only at he
    subst he
    rfl
  · intro hh hs e he
    simp only [generateModel, hc, buildModel_eq, renderPhases]
    generalize GenHeader P _ [] tmpl true = r at hh hs he ⊢
    obtain ⟨w1, e1⟩ := r
    simp only at hh
    subst hh
    simp only at hs he ⊢
    generalize GenStruct P _ w1 tmpl = r2 at hs he ⊢
    obtain ⟨w2, e2⟩ := r2
    simp only at hs
    subst hs
    simp only at he ⊢
    generalize GenObjectApi P _ w2 tmpl = r3 at he ⊢
    obtain ⟨w3, e3⟩ := r3
    simp only at he
    subst he
    rfl
  · intro hh hs he
    simp only [generateModel, hc, buildModel_eq, renderPhases]
    generalize GenHeader P _ [] tmpl true = r at hh hs he ⊢
    obtain ⟨w1, e1⟩ := r
    simp only at hh
    subst hh
    simp only at hs he ⊢
    generalize GenStruct P _ w1 tmpl = r2 at hs he ⊢
    obtain ⟨w2, e2⟩ := r2
    simp only at hs
    subst hs
    simp only at he ⊢
    generalize GenObjectApi P _ w2 tmpl = r3 at he ⊢
    obtain ⟨w3, e3⟩ := r3
    simp only at he
    subst he
    rfl

/-- With the sample templates and set 7 the struct phase fails: the file holds the output
of the header and struct phases only and the error names the table and the struct phase.
With no set, all three phases run in order and the error is nil. -/
theorem generateModel_phases_witness :
    generateModel sampleLib sampleTemplates (str "db") (str "user") [] sampleConfig (some 7) =
      some { file := some [1, 8], err := some (str "[user] Fail to gen model struct, boom") } ∧
    generateModel sampleLib sampleTemplates (str "db") (str "user") [] sampleConfig none =
      some { file := some [1, 2, 3], err := none } := by
  obtain ⟨m, hm, _, h2, _, _⟩ := generateModel_phases sampleLib sampleTemplates (str "db")
    (str "user") [] sampleConfig (some 7) rfl
  obtain ⟨m2, hm2, _, _, _, h4⟩ := generateModel_phases sampleLib sampleTemplates (str "db")
    (str "user") [] sampleConfig none rfl
  rw [buildModel_eq] at hm hm2
  cases hm
  cases hm2
  exact ⟨h2 (by decide) (str "boom") (by decide), h4 (by decide) (by decide) (by decide)⟩

/-! ## More about the primary key and the key flags -/

theorem lastPrimary_last (L : Lib) (schema : List Column) (k : Nat)
    (h : lastPrimary L schema = some k) :
    ∀ (j : Nat) (c : Column), schema[j]? = some c → isPrimary L c = true → j ≤ k := by
  induction schema generalizing k with
  | nil => simp [lastPrimary] at h
  | cons col rest ih =>
    intro j c hj hp
    simp only [lastPrimary] at h
    cases hr : lastPrimary L rest with
    | some i =>
      simp only [hr, Option.some.injEq] at h
      subst h
      cases j with
      | zero => omega
      | succ j =>
        have := ih i hr j c (by simpa using hj) hp
        omega
    | none =>
      simp only [hr] at h
      cases j with
      | zero => omega
      | succ j =>
        have hc : c ∈ rest := List.getElem?_mem (by simpa using hj)
        have := lastPrimary_none L rest hr c hc
        simp [hp] at this

theorem ToUpper_ascii (L : Lib) (s : GoString) (h : asciiOnly s = true) :
    ToUpper L s = s.map upperByte := by
  unfold asciiOnly at h
  simp only [ToUpper, h, if_true]
  rfl

/-! ## Claims about keys -/

/-- C11: the claim does not hold of the code.  For every schema the built model's `Uniques`
is empty: the slice is created with room for every column and nothing is ever appended.
For the schema with the one column `email` marked `UNI`, the field is classified as
unique key and `Uniques` is empty all the same. -/
theorem generateModel_uniques_empty :
    (∀ (L : Lib) (dbName tName : GoString) (schema : TableSchema) (config : CodeConfig),
      ∃ b, buildModel L dbName tName schema config = some b ∧ b.model.Uniques = []) ∧
    ∀ (L : Lib), ∃ (b : Build) (f : ModelField),
      buildModel L (str "db") (str "user") [mkColumn "email" "UNI" "" [] [] []] sampleConfig
        = some b ∧
      b.model.Fields = [f] ∧ f.IsUniqueKey = true ∧ b.model.Uniques = [] := by
  constructor
  · intro L dbName tName schema config
    exact ⟨_, buildModel_eq L dbName tName schema config, rfl⟩
  · intro L
    exact ⟨_, fieldOf L (mkColumn "email" "UNI" "" [] [] []), buildModel_eq _ _ _ _ _,
      rfl, rfl, rfl⟩

/-- C12, as stated, fails: for the schema with the columns `id` and `code`, both marked
`PRI`, two columns are primary and `PrimaryField` is set; it points to the field of the
second one. -/
theorem generateModel_primaryField_two :
    ∃ (b : Build) (f : ModelField),
      buildModel sampleLib (str "db") (str "user")
        [mkColumn "id" "PRI" "" [] [] [], mkColumn "code" "PRI" "" [] [] []] sampleConfig
        = some b ∧
      List.countP (isPrimary sampleLib)
        [mkColumn "id" "PRI" "" [] [] [], mkColumn "code" "PRI" "" [] [] []] = 2 ∧
      b.model.PrimaryField = some 1 ∧ b.primaryField = some f ∧
      f.ColumnName = str "code" := by
  exact ⟨_, fieldOf sampleLib (mkColumn "code" "PRI" "" [] [] []), buildModel_eq _ _ _ _ _,
    by decide, by decide, by decide, rfl⟩

/-- C12 (amended): for every schema the built model's `PrimaryField` is set if and only if
at least one column is classified as primary; when no column is, it is nil. -/
theorem generateModel_primaryField_iff (L : Lib) (dbName tName : GoString)
    (schema : TableSchema) (config : CodeConfig) :
    ∃ b, buildModel L dbName tName schema config = some b ∧
      (b.model.PrimaryField ≠ none ↔ ∃ c ∈ schema, isPrimary L c = true) ∧
      (b.primaryField ≠ none ↔ ∃ c ∈ schema, isPrimary L c = true) := by
  refine ⟨_, buildModel_eq L dbName tName schema config, ?_⟩
  cases hl : lastPrimary L schema with
  | none =>
    have hn := lastPrimary_none L schema hl
    have : ¬ ∃ c ∈ schema, isPrimary L c = true := by
      rintro ⟨c, hc, hp⟩
      have := hn c hc
      simp [hp] at this
    simp [Build.primaryField, hl, this]
  | some k =>
    obtain ⟨c, hc, hp⟩ := lastPrimary_some L schema k hl
    have hex : ∃ c ∈ schema, isPrimary L c = true := ⟨c, List.getElem?_mem hc, hp⟩
    simp only [Build.primaryField, hl, List.getElem?_map, hc, Option.map_some, ne_eq,
      not_false_eq_true, true_iff]
    simp [hex]

/-- C13: for every schema in which more than one column is classified as primary, the
build returns a model (the builder has no error, and `generateModel` then returns exactly
what the rendering returns), and `PrimaryField` points to a field equal to the entry in
`Fields` of the last such column in schema order. -/
theorem generateModel_primaryField_last (L : Lib) (dbName tName : GoString)
    (schema : TableSchema) (config : CodeConfig)
    (h : 1 < schema.countP (isPrimary L)) :
    ∃ (b : Build) (k : Nat) (col : Column) (f : ModelField),
      buildModel L dbName tName schema config = some b ∧
      schema[k]? = some col ∧ isPrimary L col = true ∧
      (∀ (j : Nat) (c : Column), schema[j]? = some c → isPrimary L c = true → j ≤ k) ∧
      b.model.PrimaryField = some k ∧ b.primaryField = some f ∧
      b.model.Fields[k]? = some f ∧ f.ColumnName = col.ColumnName ∧
      ∀ {T : Type} (P : Templates T) (tmpl : Option T),
        L.osCreate (L.pathJoin config.PackageName (tName ++ str ".go")) = none →
        generateModel L P dbName tName schema config tmpl = some
          { file := some (renderPhases P tName b [] tmpl).1
            err := (renderPhases P tName b [] tmpl).2 } := by
  cases hl : lastPrimary L schema with
  | none =>
    have hn := lastPrimary_none L schema hl
    have : schema.countP (isPrimary L) = 0 := by
      rw [List.countP_eq_zero]
      intro c hc
      simp [hn c hc]
    omega
  | some k =>
    obtain ⟨col, hc, hp⟩ := lastPrimary_some L schema k hl
    refine ⟨_, k, col, fieldOf L col, buildModel_eq L dbName tName schema config, hc, hp,
      lastPrimary_last L schema k hl, hl, ?_, ?_, rfl, ?_⟩
    · simp [Build.primaryField, hl, hc]
    · simp [hc]
    · intro T P tmpl hcreate
      simp only [generateModel, hcreate, buildModel_eq]

/-- For the schema with the columns `id` and `code`, both marked `PRI`, the last primary
column is column 1 and `PrimaryField` points to the field of `code`. -/
theorem generateModel_primaryField_last_witness :
    1 < List.countP (isPrimary sampleLib)
      [mkColumn "id" "PRI" "" [] [] [], mkColumn "code" "PRI" "" [] [] []] ∧
    ∃ (b : Build) (k : Nat) (col : Column) (f : ModelField),
      buildModel sampleLib (str "db") (str "user")
        [mkColumn "id" "PRI" "" [] [] [], mkColumn "code" "PRI" "" [] [] []] sampleConfig
        = some b ∧
      [mkColumn "id" "PRI" "" [] [] [], mkColumn "code" "PRI" "" [] [] []][k]? = some col ∧
      b.primaryField = some f ∧ f.ColumnName = col.ColumnName := by
  refine ⟨by decide, ?_⟩
  obtain ⟨b, k, col, f, hb, hk, _, _, _, hpf, _, hn, _⟩ :=
    generateModel_primaryField_last sampleLib (str "db") (str "user")
      [mkColumn "id" "PRI" "" [] [] [], mkColumn "code" "PRI" "" [] [] []] sampleConfig
      (by decide)
  exact ⟨b, k, col, f, hb, hk, hpf, hn⟩

theorem equalFold_upper (s t : GoString) (ht : t.map upperByte = t) :
    equalFold s t = true ↔ s.map upperByte = t := by
  simp [equalFold, ht]

/-- C14: for every column the built field has `IsPrimaryKey` true exactly when the
upper-cased `ColumnKey` is `PRI`, `IsUniqueKey` true exactly when it is `UNI`, and
`IsAutoIncrement` true exactly when the upper-cased `Extra` is `AUTO_INCREMENT`; for an
ASCII attribute that is equality ignoring the case of the letters.  No field is both
primary and unique. -/
theorem generateModel_key_flags (L : Lib) (dbName tName : GoString) (schema : TableSchema)
    (config : CodeConfig) :
    ∃ b, buildModel L dbName tName schema config = some b ∧
      ∀ (i : Nat) (col : Column), schema[i]? = some col →
        ∃ f : ModelField, b.model.Fields[i]? = some f ∧
          (f.IsPrimaryKey = true ↔ ToUpper L col.ColumnKey = str "PRI") ∧
          (f.IsUniqueKey = true ↔ ToUpper L col.ColumnKey = str "UNI") ∧
          (f.IsAutoIncrement = true ↔ ToUpper L col.Extra = str "AUTO_INCREMENT") ∧
          (asciiOnly col.ColumnKey = true →
            (f.IsPrimaryKey = true ↔ equalFold col.ColumnKey (str "PRI") = true) ∧
            (f.IsUniqueKey = true ↔ equalFold col.ColumnKey (str "UNI") = true)) ∧
          (asciiOnly col.Extra = true →
            (f.IsAutoIncrement = true ↔
              equalFold col.Extra (str "AUTO_INCREMENT") = true)) ∧
          ¬ (f.IsPrimaryKey = true ∧ f.IsUniqueKey = true) := by
  refine ⟨_, buildModel_eq L dbName tName schema config, ?_⟩
  intro i col hcol
  refine ⟨fieldOf L col, by simp [hcol], ?_, ?_, ?_, ?_, ?_, ?_⟩
  · simp [fieldOf, isPrimary]
  · simp [fieldOf]
  · simp [fieldOf]
  · intro ha
    rw [equalFold_upper _ _ (by decide), equalFold_upper _ _ (by decide)]
    simp [fieldOf, isPrimary, ToUpper_ascii L _ ha]
  · intro ha
    rw [equalFold_upper _ _ (by decide)]
    simp [fieldOf, ToUpper_ascii L _ ha]
  · rintro ⟨h1, h2⟩
    have e1 : ToUpper L col.ColumnKey = str "PRI" := by simpa [fieldOf, isPrimary] using h1
    have e2 : ToUpper L col.ColumnKey = str "UNI" := by simpa [fieldOf] using h2
    rw [e1] at e2
    revert e2
    decide

/-- For the schema with the one column `id` whose key is `pri` and whose extra attribute
is `Auto_Increment`, the field is primary, auto-increment and not unique. -/
theorem generateModel_key_flags_witness :
    ∃ (b : Build) (f : ModelField),
      buildModel sampleLib (str "db") (str "user")
        [mkColumn "id" "pri" "Auto_Increment" [] [] []] sampleConfig = some b ∧
      b.model.Fields[0]? = some f ∧ f.IsPrimaryKey = true ∧ f.IsUniqueKey = false ∧
      f.IsAutoIncrement = true := by
  obtain ⟨b, hb, h⟩ := generateModel_key_flags sampleLib (str "db") (str "user")
    [mkColumn "id" "pri" "Auto_Increment" [] [] []] sampleConfig
  obtain ⟨f, hf, h1, h2, h3, _, _, _⟩ := h 0 (mkColumn "id" "pri" "Auto_Increment" [] [] []) rfl
  refine ⟨b, f, hb, hf, h1.mpr (by decide), ?_, h3.mpr (by decide)⟩
  cases hu : f.IsUniqueKey with
  | false => rfl
  | true =>
    have := h2.mp hu
    revert this
    decide

theorem generateModel_eq {T : Type} (L : Lib) (P : Templates T) (dbName tName : GoString)
    (schema : TableSchema) (config : CodeConfig) (tmpl : Option T) :
    generateModel L P dbName tName schema config tmpl = some
      (match L.osCreate (L.pathJoin config.PackageName (tName ++ str ".go")) with
       | some err => { file := none, err := some err }
       | none =>
         { file := some (renderPhases P tName (modelOf L dbName tName schema config) [] tmpl).1
           err := (renderPhases P tName (modelOf L dbName tName schema config) [] tmpl).2 }) := by
  unfold generateModel
  cases L.osCreate (L.pathJoin config.PackageName (tName ++ str ".go")) with
  | some e => rfl
  | none =>
    simp only [buildModel_eq]
    rfl

theorem GenerateModels_eq {T : Type} (L : Lib) (P : Templates T) (dbName : GoString)
    (config : CodeConfig) (tables : List (GoString × TableSchema)) :
    GenerateModels L P dbName config tables =
      some (tables.map (fun ts => (ts.1, tableFile L P dbName config ts))) := by
  induction tables with
  | nil => rfl
  | cons ts rest ih =>
    obtain ⟨tName, schema⟩ := ts
    simp only [GenerateModels, generateModel_eq, ih, List.map_cons, tableFile]
    cases L.osCreate (L.pathJoin config.PackageName (tName ++ str ".go")) <;> rfl

/-! ## Claims about the generation driver -/

/-- C15, as stated, fails: with a library in which creating the file of table `a` fails,
`GenerateModels` over the tables `a`, `b` in that order leaves no file for `a` and still
generates `b`, whose file holds the output of the three default templates. -/
theorem GenerateModels_continues_after_failure :
    generateModel failingLib sampleTemplates (str "db") (str "a") [] sampleConfig none =
      some { file := none, err := some (str "denied") } ∧
    GenerateModels failingLib sampleTemplates (str "db") sampleConfig
      [(str "a", []), (str "b", [])] =
      some [(str "a", none), (str "b", some [1, 2, 3])] := by
  decide

/-- C15 (amended): in `GenerateModels`, a failure to create the output file of one table
aborts generation for that table, which is left without file, and does not halt the run:
the tables visited before and after it are generated as a run over them alone generates
them. -/
theorem GenerateModels_create_failure {T : Type} (L : Lib) (P : Templates T)
    (dbName : GoString) (config : CodeConfig) (before after : List (GoString × TableSchema))
    (tName : GoString) (schema : TableSchema) (e : GoString)
    (h : L.osCreate (L.pathJoin config.PackageName (tName ++ str ".go")) = some e) :
    ∃ filesBefore filesAfter,
      GenerateModels L P dbName config before = some filesBefore ∧
      GenerateModels L P dbName config after = some filesAfter ∧
      generateModel L P dbName tName schema config none =
        some { file := none, err := some e } ∧
      GenerateModels L P dbName config (before ++ (tName, schema) :: after) =
        some (filesBefore ++ (tName, none) :: filesAfter) := by
  refine ⟨_, _, GenerateModels_eq L P dbName config before,
    GenerateModels_eq L P dbName config after, ?_, ?_⟩
  · rw [generateModel_eq, h]
  · rw [GenerateModels_eq]
    simp [tableFile, h]

/-- With the library in which creating the file of table `a` fails: the run over `b`,
`a`, `c` leaves files for `b` and `c` and none for `a`. -/
theorem GenerateModels_create_failure_witness :
    failingLib.osCreate (failingLib.pathJoin sampleConfig.PackageName (str "a" ++ str ".go"))
      = some (str "denied") ∧
    GenerateModels failingLib sampleTemplates (str "db") sampleConfig
      ([(str "b", [])] ++ (str "a", []) :: [(str "c", [])]) =
      some ([(str "b", some [1, 2, 3])] ++ (str "a", none) :: [(str "c", some [1, 2, 3])]) := by
  refine ⟨by decide, ?_⟩
  obtain ⟨fb, fa, hb, ha, _, hall⟩ := GenerateModels_create_failure failingLib sampleTemplates
    (str "db") sampleConfig [(str "b", [])] [(str "c", [])] (str "a") [] (str "denied")
    (by decide)
  have eb : fb = [(str "b", some [1, 2, 3])] := by
    have : GenerateModels failingLib sampleTemplates (str "db") sampleConfig [(str "b", [])]
        = some [(str "b", some [1, 2, 3])] := by decide
    rw [this] at hb
    exact (Option.some.inj hb).symm
  have ea : fa = [(str "c", some [1, 2, 3])] := by
    have : GenerateModels failingLib sampleTemplates (str "db") sampleConfig [(str "c", [])]
        = some [(str "c", some [1, 2, 3])] := by decide
    rw [this] at ha
    exact (Option.some.inj ha).symm
  rw [eb, ea] at hall
  exact hall

/-- C16, as stated, fails: with a configuration whose `Template` is `struct.tmpl`,
`GenerateModels` produces for the table `user` the output of the default templates 1, 2, 3,
while `generateModel` with the override set 7, which defines `struct`, produces the output
of template 8 in the struct phase. -/
theorem GenerateModels_ignores_config_template :
    GenerateModels sampleLib sampleTemplates (str "db")
      { PackageName := str "models", Template := str "struct.tmpl" } [(str "user", [])] =
      some [(str "user", some [1, 2, 3])] ∧
    generateModel sampleLib sampleTemplates (str "db") (str "user") []
      { PackageName := str "models", Template := str "struct.tmpl" } (some 7) =
      some { file := some [1, 8], err := some (str "[user] Fail to gen model struct, boom") } := by
  decide

/-- C16 (amended): `GenerateModels` renders every table with no template override set,
whatever the `CodeConfig` holds: a table whose file is created gets the output of the
built-in default templates `tmHeader`, `tmStruct`, `tmObjApi`, executed in that order up
to the first failure. -/
theorem GenerateModels_default_templates {T : Type} (L : Lib) (P : Templates T)
    (dbName : GoString) (config : CodeConfig) (tables : List (GoString × TableSchema)) :
    ∃ files, GenerateModels L P dbName config tables = some files ∧
      files.length = tables.length ∧
      (∀ (i : Nat) (tName : GoString) (schema : TableSchema),
        tables[i]? = some (tName, schema) →
        ∃ m, buildModel L dbName tName schema config = some m ∧
          generateModel L P dbName tName schema config none =
            some { file := tableFile L P dbName config (tName, schema)
                   err := match L.osCreate (L.pathJoin config.PackageName (tName ++ str ".go"))
                     with
                     | some err => some err
                     | none => (renderPhases P tName m [] none).2 } ∧
          files[i]? = some (tName, tableFile L P dbName config (tName, schema)) ∧
          (L.osCreate (L.pathJoin config.PackageName (tName ++ str ".go")) = none →
            tableFile L P dbName config (tName, schema) =
              some (renderPhases P tName m [] none).1)) ∧
      ∀ (m : Build) (w : Sink) (importTime : Bool),
        GenHeader P m w none importTime = P.Execute P.tmHeader w
          (Data.header m.model.DbName m.model.TableName m.model.config.PackageName
            importTime) ∧
        GenStruct P m w none = P.Execute P.tmStruct w (Data.model m) ∧
        GenObjectApi P m w none = P.Execute P.tmObjApi w (Data.model m) := by
  refine ⟨_, GenerateModels_eq L P dbName config tables, by simp, ?_, ?_⟩
  · intro i tName schema hi
    refine ⟨_, buildModel_eq L dbName tName schema config, ?_, ?_, ?_⟩
    · rw [generateModel_eq]
      simp only [tableFile]
      cases L.osCreate (L.pathJoin config.PackageName (tName ++ str ".go")) <;> rfl
    · simp [hi]
    · intro hc
      simp only [tableFile, hc]
      rfl
  · intro m w importTime
    exact ⟨rfl, rfl, rfl⟩

/-! ## The scan, position by position -/

theorem scanStep_inv (flu : Bool) (s : Scan) (i : Nat) (hi : i < s.data.length)
    (he : s.endPos ≤ i) (hl : s.lastUnderScore = true → s.endPos < i) :
    ∃ s1, scanStep flu s i = some s1 ∧ s1.endPos ≤ i + 1 ∧
      (s1.lastUnderScore = true → s1.endPos < i + 1) ∧
      s1.data.length = s.data.length := by
  have hget : s.data[i]? = some s.data[i] := List.getElem?_eq_getElem hi
  have hep : s.endPos < s.data.length := by omega
  by_cases hL : isLetter s.data[i] = true
  · refine ⟨_, by simp only [scanStep, hget, hL, store, hep, if_true]; rfl, ?_, ?_, ?_⟩
    · simp only; omega
    · simp
    · simp
  · by_cases hD : isDigit s.data[i] = true
    · by_cases hU : s.lastUnderScore = true
      · have hlt := hl hU
        have hep2 : s.endPos + 1 < (s.data.set s.endPos 95).length := by
          simp only [List.length_set]; omega
        refine ⟨_, by simp only [scanStep, hget, hL, hD, hU, store, hep, hep2, if_true]; rfl,
          ?_, ?_, ?_⟩
        · simp only; omega
        · simp
        · simp
      · refine ⟨_, by simp only [scanStep, hget, hL, hD, hU, store, hep, if_true]; rfl,
          ?_, ?_, ?_⟩
        · simp only; omega
        · simp
        · simp
    · refine ⟨_, by simp only [scanStep, hget, hL, hD]; rfl, ?_, ?_, ?_⟩
      · simp only; omega
      · intro _
        simp only
        omega
      · simp

theorem scanLoop_inv (flu : Bool) (k : Nat) :
    ∀ (s : Scan) (i : Nat), i + k ≤ s.data.length → s.endPos ≤ i →
      (s.lastUnderScore = true → s.endPos < i) →
      ∃ s1, scanLoop flu k i s = some s1 ∧ s1.endPos ≤ i + k ∧
        s1.data.length = s.data.length := by
  induction k with
  | zero =>
    intro s i _ he _
    exact ⟨s, rfl, by omega, rfl⟩
  | succ k ih =>
    intro s i hk he hl
    obtain ⟨s1, h1, h2, h3, h4⟩ := scanStep_inv flu s i (by omega) he hl
    obtain ⟨s2, g1, g2, g3⟩ := ih s1 (i + 1) (by omega) h2 h3
    refine ⟨s2, by simp only [scanLoop, h1, g1], by omega, by omega⟩

/-- C17: `toCapitalCase` never fails.  For every name and flag, after any number `k` of
iterations of the scan the state exists (no index was out of range), the write position
is at most the read position `k`, and the buffer keeps its length; the function returns a
string no longer than the name, and the empty name yields the empty string. -/
theorem toCapitalCase_never_fails (name : GoString) (firstLetterUpper : Bool) :
    (∀ k, k ≤ name.length →
      ∃ s, scanLoop firstLetterUpper k 0
          { data := name, segStart := true, endPos := 0, isFirst := true,
            lastUnderScore := false } = some s ∧
        s.endPos ≤ k ∧ s.data.length = name.length) ∧
    (∃ out, toCapitalCase name firstLetterUpper = some out ∧ out.length ≤ name.length) ∧
    toCapitalCase [] firstLetterUpper = some [] := by
  have key : ∀ k, k ≤ name.length →
      ∃ s, scanLoop firstLetterUpper k 0
          { data := name, segStart := true, endPos := 0, isFirst := true,
            lastUnderScore := false } = some s ∧
        s.endPos ≤ k ∧ s.data.length = name.length := by
    intro k hk
    obtain ⟨s, h1, h2, h3⟩ := scanLoop_inv firstLetterUpper k
      { data := name, segStart := true, endPos := 0, isFirst := true,
        lastUnderScore := false } 0 (by simpa using hk) (by simp) (by simp)
    exact ⟨s, h1, by simpa using h2, by simpa using h3⟩
  refine ⟨key, ?_, ?_⟩
  · obtain ⟨s, h1, h2, h3⟩ := key name.length (Nat.le_refl _)
    refine ⟨s.data.take s.endPos, ?_, ?_⟩
    · simp only [toCapitalCase, h1]
      rw [if_pos (by omega)]
    · simp only [List.length_take]
      omega
  · cases firstLetterUpper <;> rfl

theorem isDigit_of_not_letter (c : Nat) (h : isLetter c = true) : isDigit c = false := by
  simp only [isLetter, isLower, isUpper, Bool.or_eq_true, Bool.and_eq_true,
    decide_eq_true_eq] at h
  simp only [isDigit, Bool.and_eq_false_iff, decide_eq_false_iff_not]
  omega

theorem letterCase_eq_piece (flu : Bool) (prev : Option Nat) (c : Nat)
    (hL : isLetter c = true) :
    [letterCase flu (scanFlags prev).1 (scanFlags prev).2.1 c] = piece flu prev c := by
  cases prev with
  | none =>
    cases flu <;> simp [piece, hL, scanFlags, letterCase, upperByte]
  | some p =>
    by_cases hp : isLetter p = true
    · simp [piece, hL, scanFlags, letterCase, lowerByte, hp]
    · simp [piece, hL, scanFlags, letterCase, upperByte, hp]

theorem walk_cons_piece (flu : Bool) (prev : Option Nat) (c : Nat) (x : List Nat) :
    walk flu (scanFlags prev).1 (scanFlags prev).2.1 (scanFlags prev).2.2 (c :: x) =
      piece flu prev c ++
        walk flu (scanFlags (some c)).1 (scanFlags (some c)).2.1 (scanFlags (some c)).2.2 x := by
  by_cases hL : isLetter c = true
  · have h := letterCase_eq_piece flu prev c hL
    rw [← h]
    simp [walk, hL, scanFlags, isAlnum]
  · by_cases hD : isDigit c = true
    · have hA : isAlnum c = true := by simp [isAlnum, hD]
      cases prev with
      | none => simp [walk, hL, hD, hA, piece, scanFlags]
      | some p =>
        by_cases hp : isAlnum p = true
        · simp [walk, hL, hD, hA, piece, scanFlags, hp]
        · simp [walk, hL, hD, hA, piece, scanFlags, hp]
    · have hA : isAlnum c = false := by simp [isAlnum, hL, hD]
      simp [walk, hL, hD, hA, piece, scanFlags]

theorem prevByte_append (pre : List Nat) (c : Nat) (x : List Nat) :
    prevByte (pre ++ c :: x) pre.length = pre.getLast? := by
  unfold prevByte
  cases hpre : pre.length with
  | zero =>
    have : pre = [] := List.length_eq_zero.mp hpre
    simp [this]
  | succ n =>
    have hne : pre ≠ [] := by
      intro h
      simp [h] at hpre
    have hlt : n < pre.length := by omega
    simp only [Nat.succ_ne_zero, if_false, Nat.add_sub_cancel]
    rw [List.getElem?_append_left hlt, List.getLast?_eq_getElem?]
    simp [hpre]

theorem walk_eq_pieces (flu : Bool) (x : List Nat) :
    ∀ pre : List Nat,
      walk flu (scanFlags pre.getLast?).1 (scanFlags pre.getLast?).2.1
          (scanFlags pre.getLast?).2.2 x =
        (List.range x.length).flatMap (fun j => pieceAt flu (pre ++ x) (pre.length + j)) := by
  induction x with
  | nil =>
    intro pre
    simp [walk]
  | cons c x ih =>
    intro pre
    rw [walk_cons_piece]
    have hlast : (pre ++ [c]).getLast? = some c := by simp
    have h2 := ih (pre ++ [c])
    rw [hlast] at h2
    rw [h2]
    simp only [List.length_cons, List.range_succ_eq_map, List.flatMap_cons, List.flatMap_map]
    congr 1
    · simp only [pieceAt, Nat.add_zero]
      have : (pre ++ c :: x)[pre.length]? = some c := by
        rw [List.getElem?_append_right (Nat.le_refl _)]
        simp
      rw [this, prevByte_append]
    · apply congrArg (fun f => List.flatMap (List.range x.length) f)
      funext j
      simp only [Function.comp, List.append_assoc, List.singleton_append, List.length_append,
        List.length_singleton, Nat.succ_eq_add_one]
      rw [Nat.add_assoc, Nat.add_comm 1 j]

theorem toCapitalCase_eq_pieces (name : GoString) (flu : Bool) :
    toCapitalCase name flu =
      some ((List.range name.length).flatMap (pieceAt flu name)) := by
  rw [toCapitalCase_eq_walk]
  have h := walk_eq_pieces flu name []
  simp only [List.getLast?_nil, scanFlags, List.nil_append, List.length_nil,
    Nat.zero_add] at h
  rw [h]

/-- C20: the stateful scan equals a stateless map over the positions: for every name and
flag, `toCapitalCase` returns the concatenation over the positions `i` of `pieceAt`, the
piece of the byte at `i` given the byte before `i` (none at position 0). -/
theorem toCapitalCase_stateless (name : GoString) (firstLetterUpper : Bool) :
    toCapitalCase name firstLetterUpper =
      some ((List.range name.length).flatMap (fun i =>
        match name[i]? with
        | none => []
        | some ch => piece firstLetterUpper (if i = 0 then none else name[i - 1]?) ch)) :=
  toCapitalCase_eq_pieces name firstLetterUpper

theorem isLetter_ne_underscore (c : Nat) (h : isLetter c = true) : c ≠ 95 := by
  intro hc
  subst hc
  revert h
  decide

theorem isDigit_ne_underscore (c : Nat) (h : isDigit c = true) : c ≠ 95 := by
  intro hc
  subst hc
  revert h
  decide

theorem sepDigitCount_cons (c : Nat) (x : List Nat) :
    sepDigitCount (c :: x) =
      (match x with
        | [] => 0
        | d :: _ => if !isAlnum c && isDigit d then 1 else 0) + sepDigitCount x := by
  cases x with
  | nil => simp [sepDigitCount]
  | cons d x =>
    simp only [sepDigitCount, List.tail_cons, List.zip_cons_cons, List.countP_cons]
    omega

theorem walk_count_underscore (flu : Bool) (x : List Nat) :
    ∀ ss isF lus : Bool,
      (walk flu ss isF lus x).count 95 =
        (match x with
          | [] => 0
          | d :: _ => if lus && isDigit d then 1 else 0) + sepDigitCount x := by
  induction x with
  | nil =>
    intro ss isF lus
    simp [walk, sepDigitCount]
  | cons c x ih =>
    intro ss isF lus
    rw [sepDigitCount_cons]
    by_cases hL : isLetter c = true
    · have hD := isDigit_of_not_letter c hL
      have hne : letterCase flu ss isF c ≠ 95 :=
        isLetter_ne_underscore _ (isLetter_letterCase flu ss isF c hL)
      have hA : isAlnum c = true := by simp [isAlnum, hL]
      simp only [walk, hL, if_true]
      rw [List.count_cons_of_ne (Ne.symm hne), ih false false false]
      cases x <;> simp [hD, hA]
    · by_cases hD : isDigit c = true
      · have hne : c ≠ 95 := isDigit_ne_underscore c hD
        have hA : isAlnum c = true := by simp [isAlnum, hD]
        cases lus
        · simp only [walk, hL, hD, if_true, if_false, Bool.false_eq_true]
          rw [List.count_cons_of_ne (Ne.symm hne), ih true false false]
          cases x <;> simp [hA]
        · simp only [walk, hL, hD, if_true, if_false, Bool.false_eq_true]
          rw [List.count_cons_self, List.count_cons_of_ne (Ne.symm hne), ih true false false]
          cases x <;> simp [hA] <;> omega
      · have hA : isAlnum c = false := by simp [isAlnum, hL, hD]
        simp only [walk, hL, hD, if_false, Bool.false_eq_true]
        rw [ih true false true]
        cases x <;> simp [hD, hA]

theorem walk_filter_digit (flu : Bool) (x : List Nat) :
    ∀ ss isF lus : Bool, (walk flu ss isF lus x).filter isDigit = x.filter isDigit := by
  induction x with
  | nil =>
    intro ss isF lus
    simp [walk]
  | cons c x ih =>
    intro ss isF lus
    have h95 : isDigit 95 = false := by decide
    by_cases hL : isLetter c = true
    · have hD := isDigit_of_not_letter c hL
      have hD2 := isDigit_of_not_letter _ (isLetter_letterCase flu ss isF c hL)
      simp [walk, hL, hD, hD2, ih]
    · by_cases hD : isDigit c = true
      · cases lus <;> simp [walk, hL, hD, h95, ih]
      · simp [walk, hL, hD, ih]

/-- C18: for every name and flag, the output is the concatenation of the pieces of the
positions; the piece of a digit is the digit with an underscore before it exactly when
the byte immediately before the digit in the input is neither letter nor digit, and the
piece of any other byte has no underscore.  The number of underscores in the output is
the number of digit positions that come immediately after such a byte, and the digits of
the output are the digits of the input, unchanged and in order. -/
theorem toCapitalCase_digits (name : GoString) (firstLetterUpper : Bool) :
    ∃ out, toCapitalCase name firstLetterUpper = some out ∧
      out = (List.range name.length).flatMap (pieceAt firstLetterUpper name) ∧
      (∀ (i d : Nat), name[i]? = some d → isDigit d = true →
        ((∃ p, prevByte name i = some p ∧ isAlnum p = false) →
          pieceAt firstLetterUpper name i = [95, d]) ∧
        ((¬ ∃ p, prevByte name i = some p ∧ isAlnum p = false) →
          pieceAt firstLetterUpper name i = [d])) ∧
      (∀ (i c : Nat), name[i]? = some c → isDigit c = false →
        95 ∉ pieceAt firstLetterUpper name i) ∧
      out.count 95 = sepDigitCount name ∧
      out.filter isDigit = name.filter isDigit := by
  refine ⟨_, toCapitalCase_eq_walk name firstLetterUpper, ?_, ?_, ?_, ?_, ?_⟩
  · have h := toCapitalCase_eq_pieces name firstLetterUpper
    rw [toCapitalCase_eq_walk] at h
    exact Option.some.inj h
  · intro i d hi hd
    have hL : isLetter d = false := by
      cases h : isLetter d with
      | false => rfl
      | true =>
        have := isDigit_of_not_letter d h
        simp [hd] at this
    constructor
    · rintro ⟨p, hp, ha⟩
      simp [pieceAt, hi, piece, hL, hd, hp, ha]
    · intro hn
      cases hp : prevByte name i with
      | none => simp [pieceAt, hi, piece, hL, hd, hp]
      | some p =>
        have ha : isAlnum p = true := by
          cases h : isAlnum p with
          | true => rfl
          | false => exact absurd ⟨p, hp, h⟩ hn
        simp [pieceAt, hi, piece, hL, hd, hp, ha]
  · intro i c hi hc
    by_cases hL : isLetter c = true
    · have hne := isLetter_ne_underscore c hL
      have h1 : upperByte c ≠ 95 := by
        have := isLetter_letterCase true true false c hL
        simpa [letterCase, upperByte] using isLetter_ne_underscore _ this
      have h2 : lowerByte c ≠ 95 := by
        have := isLetter_letterCase true false false c hL
        simpa [letterCase, lowerByte] using isLetter_ne_underscore _ this
      simp only [pieceAt, hi, piece, hL, if_true]
      cases prevByte name i with
      | none => cases firstLetterUpper <;> simp [Ne.symm h1, Ne.symm hne]
      | some p => by_cases hp : isLetter p = true <;> simp [hp, Ne.symm h1, Ne.symm h2]
    · simp [pieceAt, hi, piece, hL, hc]
  · have h := walk_count_underscore firstLetterUpper name true true false
    cases name <;> simpa using h
  · exact walk_filter_digit firstLetterUpper name true true false

theorem walk_chars (flu : Bool) (x : List Nat) :
    ∀ ss isF lus : Bool, ∀ c ∈ walk flu ss isF lus x,
      isLetter c = true ∨ isDigit c = true ∨ c = 95 := by
  induction x with
  | nil =>
    intro ss isF lus c hc
    simp [walk] at hc
  | cons a x ih =>
    intro ss isF lus c hc
    by_cases hL : isLetter a = true
    · simp only [walk, hL, if_true, List.mem_cons] at hc
      rcases hc with rfl | hc
      · exact Or.inl (isLetter_letterCase flu ss isF a hL)
      · exact ih _ _ _ c hc
    · by_cases hD : isDigit a = true
      · cases lus
        · simp only [walk, hL, hD, if_true, if_false, Bool.false_eq_true,
            List.mem_cons] at hc
          rcases hc with rfl | hc
          · exact Or.inr (Or.inl hD)
          · exact ih _ _ _ c hc
        · simp only [walk, hL, hD, if_true, if_false, Bool.false_eq_true,
            List.mem_cons] at hc
          rcases hc with rfl | rfl | hc
          · exact Or.inr (Or.inr rfl)
          · exact Or.inr (Or.inl hD)
          · exact ih _ _ _ c hc
      · simp only [walk, hL, hD, if_false, Bool.false_eq_true] at hc
        exact ih _ _ _ c hc

theorem walk_underscore_digit (flu : Bool) (x : List Nat) :
    ∀ (ss isF lus : Bool) (i : Nat), (walk flu ss isF lus x)[i]? = some 95 →
      ∃ d, (walk flu ss isF lus x)[i + 1]? = some d ∧ isDigit d = true := by
  induction x with
  | nil =>
    intro ss isF lus i h
    simp [walk] at h
  | cons a x ih =>
    intro ss isF lus i h
    by_cases hL : isLetter a = true
    · simp only [walk, hL, if_true] at h ⊢
      cases i with
      | zero =>
        simp only [List.getElem?_cons_zero, Option.some.injEq] at h
        exact absurd h (isLetter_ne_underscore _ (isLetter_letterCase flu ss isF a hL))
      | succ j =>
        simp only [List.getElem?_cons_succ] at h ⊢
        exact ih _ _ _ j h
    · by_cases hD : isDigit a = true
      · cases lus
        · simp only [walk, hL, hD, if_true, if_false, Bool.false_eq_true] at h ⊢
          cases i with
          | zero =>
            simp only [List.getElem?_cons_zero, Option.some.injEq] at h
            exact absurd h (isDigit_ne_underscore a hD)
          | succ j =>
            simp only [List.getElem?_cons_succ] at h ⊢
            exact ih _ _ _ j h
        · simp only [walk, hL, hD, if_true, if_false, Bool.false_eq_true] at h ⊢
          cases i with
          | zero => exact ⟨a, by simp, hD⟩
          | succ j =>
            cases j with
            | zero =>
              simp only [List.getElem?_cons_succ, List.getElem?_cons_zero,
                Option.some.injEq] at h
              exact absurd h (isDigit_ne_underscore a hD)
            | succ k =>
              simp only [List.getElem?_cons_succ] at h ⊢
              exact ih _ _ _ k h
      · simp only [walk, hL, hD, if_false, Bool.false_eq_true] at h ⊢
        exact ih _ _ _ i h

theorem walk_filter_length (flu : Bool) (x : List Nat) :
    ∀ ss isF lus : Bool,
      ((walk flu ss isF lus x).filter (fun c => decide (c ≠ 95))).length =
        (x.filter isAlnum).length := by
  induction x with
  | nil =>
    intro ss isF lus
    simp [walk]
  | cons a x ih =>
    intro ss isF lus
    have ih1 := ih false false false
    have ih2 := ih true false false
    have ih3 := ih true false true
    simp only [ne_eq, decide_not] at ih1 ih2 ih3
    by_cases hL : isLetter a = true
    · have hne := isLetter_ne_underscore _ (isLetter_letterCase flu ss isF a hL)
      have hA : isAlnum a = true := by simp [isAlnum, hL]
      simp [walk, hL, hne, hA, ih1]
    · by_cases hD : isDigit a = true
      · have hne := isDigit_ne_underscore a hD
        have hA : isAlnum a = true := by simp [isAlnum, hD]
        cases lus <;> simp [walk, hL, hD, hne, hA, ih2]
      · have hA : isAlnum a = false := by simp [isAlnum, hL, hD]
        simp [walk, hL, hD, hA, ih3]

/-- C19: for every name and flag, every byte of the output of `toCapitalCase` is an ASCII
letter, an ASCII digit or an underscore, every underscore of the output is immediately
followed by a digit, and the bytes of the output other than underscores are as many as
the letters and digits of the name: a byte that is neither contributes no output byte of
its own. -/
theorem toCapitalCase_output_bytes (name : GoString) (firstLetterUpper : Bool) :
    ∃ out, toCapitalCase name firstLetterUpper = some out ∧
      (∀ c ∈ out, isLetter c = true ∨ isDigit c = true ∨ c = 95) ∧
      (∀ i : Nat, out[i]? = some 95 → ∃ d, out[i + 1]? = some d ∧ isDigit d = true) ∧
      (out.filter (fun c => decide (c ≠ 95))).length = (name.filter isAlnum).length ∧
      ∀ (i c : Nat), name[i]? = some c → isAlnum c = false →
        pieceAt firstLetterUpper name i = [] :=
  ⟨_, toCapitalCase_eq_walk name firstLetterUpper,
    walk_chars firstLetterUpper name true true false,
    walk_underscore_digit firstLetterUpper name true true false,
    walk_filter_length firstLetterUpper name true true false,
    fun i c hi hc => by
      have h : isLetter c = false ∧ isDigit c = false := by
        simpa [isAlnum] using hc
      simp [pieceAt, hi, piece, h.1, h.2]⟩

end Generator
